import Mathlib

/-!
# MaidSafe-CRUX: the datagram multiplexer and the header/payload buffer sequence

A shallow embedding of `include/maidsafe/crux/detail/buffer.hpp` and
`include/maidsafe/crux/detail/multiplexer.hpp`, followed by theorems about the
embedded code.

Conventions of the embedding
* pointers (`socket_base *`, handlers, buffer locations) are natural-number identities;
* `boost::system::error_code` is a natural number, `0` meaning success;
* undefined behaviour (null dereference, out-of-range `operator[]`) is `none`;
* `std::atomic<int> receive_calls` is an `Int` kept in `[INT_MIN, INT_MAX]`: `++` and
  `--` wrap modulo `2^32`, as two's-complement atomic arithmetic does;
* every call the multiplexer makes on a collaborator (UDP socket, `socket_base`,
  completion handler) is appended to a trace, in program order.
-/

namespace crux

/-! ## buffer.hpp -/

/-- View `boost::asio::mutable_buffer`: a location and a length, not owning the storage. -/
structure mutable_buffer where
  data : Nat
  size : Nat
deriving DecidableEq, Repr

/-- Class `buffers`: one header segment and a vector of payload segments. -/
structure buffers where
  header : mutable_buffer
  payload : List mutable_buffer
deriving DecidableEq, Repr

/-- Constructor `buffers::buffers(header, payload)`: copies the header, then walks the
payload sequence from `begin()` to `end()` and `emplace_back`s every element. -/
def buffers.make (header : mutable_buffer) (payload : List mutable_buffer) : buffers :=
  { header := header
    payload := payload.foldl (fun acc x => acc ++ [x]) [] }

/-- Struct `buffers::const_iterator`: a position and two pointers (`none` is `nullptr`). -/
structure const_iterator where
  i : Nat
  header : Option mutable_buffer
  payload : Option (List mutable_buffer)
deriving DecidableEq, Repr

namespace const_iterator

/-- Default constructor `const_iterator()`: position 0, both pointers null. -/
def null : const_iterator :=
  { i := 0, header := none, payload := none }

/-- Constructor `const_iterator(header, payload)`: position 0, pointing at both parts. -/
def make (header : mutable_buffer) (payload : List mutable_buffer) : const_iterator :=
  { i := 0, header := some header, payload := some payload }

/-- Prefix `operator++()`: `return (*payload)[++i - 1];`.
The result is the referenced element and the advanced iterator. -/
def preinc (it : const_iterator) : Option (mutable_buffer × const_iterator) :=
  let i1 := it.i + 1
  match it.payload with
  | none => none
  | some p =>
    match p[i1 - 1]? with
    | none => none
    | some v => some (v, { it with i := i1 })

/-- Postfix `operator++(int)`: the header at position 0, else `(*payload)[i++ - 1]`. -/
def postinc (it : const_iterator) : Option (mutable_buffer × const_iterator) :=
  if it.i = 0 then
    match it.header with
    | none => none
    | some h => some (h, { it with i := it.i + 1 })
  else
    match it.payload with
    | none => none
    | some p =>
      match p[it.i - 1]? with
      | none => none
      | some v => some (v, { it with i := it.i + 1 })

/-- Dereference `operator*()`: the header at position 0, else `(*payload)[i - 1]`. -/
def deref (it : const_iterator) : Option mutable_buffer :=
  if it.i = 0 then it.header
  else
    match it.payload with
    | none => none
    | some p => p[it.i - 1]?

/-- A reader that applies postfix increment `n` times and collects the returned
elements in the order they were returned, together with the final iterator. -/
def collect : Nat → const_iterator → Option (List mutable_buffer × const_iterator)
  | 0, it => some ([], it)
  | n + 1, it =>
    match postinc it with
    | none => none
    | some (v, it1) =>
      match collect n it1 with
      | none => none
      | some (vs, it2) => some (v :: vs, it2)

end const_iterator

/-- The iterator a reader starts from: `const_iterator(header, payload)` over the two
members of a `buffers` value. -/
def buffers.first (b : buffers) : const_iterator :=
  const_iterator.make b.header b.payload

/-- The iterator of `b` standing at position `k`. -/
def buffers.at_position (b : buffers) (k : Nat) : const_iterator :=
  { b.first with i := k }

/-- Function `boost::asio::buffer_size` of a `buffers` sequence: the total number of bytes
a vectored read into it can store. -/
def buffers.buffer_size (b : buffers) : Nat :=
  b.header.size + (b.payload.map (fun p => p.size)).sum

/-! ## multiplexer.hpp: data model -/

/-- Type `multiplexer::endpoint_type` (address and port of a peer), the routing key. -/
abbrev endpoint_type := Nat

/-- Type `boost::system::error_code`; `0` is success, so `!error` is `error = 0`. -/
abbrev error_code := Nat

/-- Identity of a `socket_base` object (the value of a `socket_base *`). -/
abbrev SocketId := Nat

/-- Identity of a completion handler. -/
abbrev HandlerId := Nat

/-- Type `detail::buffer = std::vector<char>`: the bytes it holds. -/
abbrev buffer_type := List Nat

/-- Expression `std::make_shared<buffer_type>(n)`: a vector of `n` value-initialised
chars, whose `capacity()` is taken to be its size. -/
def make_buffer (n : Nat) : buffer_type := List.replicate n 0

/-- The vector after a read stored `bytes` at its front: the size does not change. -/
def buffer_write (b : buffer_type) (bytes : List Nat) : buffer_type :=
  bytes.take b.length ++ b.drop bytes.length

/-- Modelled from the spec: the pending receive request a socket hands out from
`dequeue()` (declared in `socket_base.hpp`, which is not among the sources): the
vectored destination, the location that captures the header, and the continuation;
these are the three members `process_peek` reads. -/
structure Input where
  buffers : buffers
  header_data : Nat
  handler : HandlerId
deriving DecidableEq, Repr

/-- Modelled from the spec: the state of a `socket_base` (declared in `socket_base.hpp`,
which is not among the sources): a mutable remote endpoint, at most one pending receive
request, and a backlog of received datagrams (error, byte count, buffer) in arrival order. -/
structure socket_base where
  remote : endpoint_type
  pending : Option Input
  backlog : List (error_code × Nat × buffer_type)

/-- One datagram waiting in the receive queue of the UDP socket. -/
structure Datagram where
  source : endpoint_type
  data : buffer_type
deriving DecidableEq, Repr

/-- What the UDP socket (`next_layer_type`, a boost.asio collaborator) answers during one
cycle: the datagram at the head of its receive queue, and the error code the consuming
`receive_from` reports (`0` when the read succeeds). -/
structure Transport where
  datagram : Datagram
  read_error : error_code
deriving DecidableEq, Repr

/-- Result of one `socket.receive_from(buffers, sender, flags, ec)`: the value written to
`ec`, the returned byte count, the bytes stored, and the value left in `sender`. -/
structure ReadResult where
  error : error_code
  bytes : Nat
  data : List Nat
  sender : endpoint_type
deriving DecidableEq, Repr

/-- Command `socket_type::bytes_readable` through `io_control`: the length of the pending
datagram, without consuming it. -/
def Transport.bytes_readable (net : Transport) : Nat :=
  net.datagram.data.length

/-- Call `socket.receive_from(buffer of the given capacity, sender, flags, ec)`: always
overwrites `ec`; on success stores the datagram (cut to the capacity), returns the number
of bytes stored and writes the source into `sender`; on failure returns 0 and leaves
`sender` as it was. -/
def Transport.receive_from (net : Transport) (capacity : Nat) (sender : endpoint_type) :
    ReadResult :=
  if net.read_error = 0 then
    { error := 0
      bytes := min capacity net.datagram.data.length
      data := net.datagram.data.take capacity
      sender := net.datagram.source }
  else
    { error := net.read_error, bytes := 0, data := [], sender := sender }

/-- Destination of a consuming read. -/
inductive Target where
  | datagram (capacity : Nat)
  | request (s : SocketId) (b : buffers)
deriving DecidableEq, Repr

/-- The calls the multiplexer makes on its collaborators. -/
inductive Event where
  | async_receive_from
  | make_shared (size : Nat)
  | receive_from (target : Target) (error : error_code) (bytes : Nat)
  | dequeue (s : SocketId)
  | remote_endpoint (s : SocketId) (e : endpoint_type)
  | enqueue (s : SocketId) (error : error_code) (bytes : Nat) (datagram : buffer_type)
  | process_receive (s : SocketId) (error : error_code) (header_data : Nat) (bytes : Nat)
      (handler : HandlerId)
  | handler (h : HandlerId) (error : error_code)
deriving DecidableEq, Repr

/-- Type `multiplexer::socket_map = std::map<endpoint_type, socket_base *>`. -/
abbrev socket_map := List (endpoint_type × SocketId)

/-- Member `std::map::find`: the socket stored under the key, if any. -/
def socket_map.find : socket_map → endpoint_type → Option SocketId
  | [], _ => none
  | (k, v) :: m, e => if k = e then some v else socket_map.find m e

/-- Member `std::map::insert`: stores the pair unless the key is already present. -/
def socket_map.insert (m : socket_map) (kv : endpoint_type × SocketId) : socket_map :=
  match socket_map.find m kv.1 with
  | some _ => m
  | none => kv :: m

/-- Member `std::map::erase(key)`: drops the entry stored under the key. -/
def socket_map.erase : socket_map → endpoint_type → socket_map
  | [], _ => []
  | (k, v) :: m, e => if k = e then socket_map.erase m e else (k, v) :: socket_map.erase m e

/-- Constant `INT_MAX` of a 32-bit `int`. -/
def INT_MAX : Int := 2147483647

/-- Constant `INT_MIN` of a 32-bit `int`. -/
def INT_MIN : Int := -2147483648

/-- The value an `int` holds after an arithmetic step whose exact result is `x`: the
arithmetic of `std::atomic<int>` is two's-complement and wraps modulo `2^32` into
`[INT_MIN, INT_MAX]`. -/
def wrap (x : Int) : Int :=
  (x + 2147483648) % 4294967296 - 2147483648

/-- The multiplexer with its surroundings. `sockets`, `receive_calls` and
`acceptor_queue` are the members of class `multiplexer`; `peeks` counts the
`async_receive_from(..., message_peek, ...)` operations outstanding on its UDP socket;
`socks` holds the `socket_base` objects the pointers refer to; `trace` records the calls
made on collaborators. -/
structure System where
  sockets : socket_map
  receive_calls : Int
  acceptor_queue : List (SocketId × HandlerId)
  peeks : Nat
  socks : SocketId → socket_base
  trace : List Event

/-- Appends events to the trace. -/
def System.emit (w : System) (es : List Event) : System :=
  { w with trace := w.trace ++ es }

/-- Modelled from the spec: setter `socket_base::remote_endpoint(e)` (`socket_base.hpp` is
not among the sources): binds the peer key of socket `s`. -/
def System.set_remote_endpoint (s : SocketId) (e : endpoint_type) (w : System) : System :=
  { w with
    socks := Function.update w.socks s { w.socks s with remote := e }
    trace := w.trace ++ [Event.remote_endpoint s e] }

/-- Modelled from the spec: `socket_base::enqueue(error, byte_count, datagram)`
(`socket_base.hpp` is not among the sources): appends a received datagram to the backlog
of socket `s`. -/
def System.enqueue (s : SocketId) (error : error_code) (bytes : Nat) (datagram : buffer_type)
    (w : System) : System :=
  { w with
    socks := Function.update w.socks s
      { w.socks s with backlog := (w.socks s).backlog ++ [(error, bytes, datagram)] }
    trace := w.trace ++ [Event.enqueue s error bytes datagram] }

/-- Modelled from the spec: `socket_base::dequeue()` (`socket_base.hpp` is not among the
sources): returns and removes the outstanding receive request of socket `s`, if any. -/
def System.dequeue (s : SocketId) (w : System) : Option Input × System :=
  ((w.socks s).pending,
    { w with
      socks := Function.update w.socks s { w.socks s with pending := none }
      trace := w.trace ++ [Event.dequeue s] })

namespace multiplexer

/-- Factory `multiplexer::create`: empty routing map and accept queue, `receive_calls(0)`,
nothing outstanding on the UDP socket. -/
def create (socks : SocketId → socket_base) : System :=
  { sockets := [], receive_calls := 0, acceptor_queue := [], peeks := 0,
    socks := socks, trace := [] }

/-- Method `multiplexer::add`: `sockets.insert(value_type(socket->remote_endpoint(), socket))`. -/
def add (socket : SocketId) (w : System) : System :=
  { w with sockets := w.sockets.insert ((w.socks socket).remote, socket) }

/-- Method `multiplexer::remove`: `sockets.erase(socket->remote_endpoint())`. -/
def remove (socket : SocketId) (w : System) : System :=
  { w with sockets := w.sockets.erase (w.socks socket).remote }

/-- Method `multiplexer::do_start_receive`: issues one `async_receive_from` with
`message_peek` on the UDP socket. -/
def do_start_receive (w : System) : System :=
  { w with peeks := w.peeks + 1, trace := w.trace ++ [Event.async_receive_from] }

/-- Method `multiplexer::async_accept`: `acceptor_queue.emplace(operation)`, then
`if (receive_calls++ == 0) do_start_receive();`. -/
def async_accept (socket : SocketId) (handler : HandlerId) (w : System) : System :=
  let w1 := { w with acceptor_queue := w.acceptor_queue ++ [(socket, handler)] }
  let w2 := { w1 with receive_calls := wrap (w1.receive_calls + 1) }
  if w1.receive_calls = 0 then do_start_receive w2 else w2

/-- Method `multiplexer::start_receive`: `if (receive_calls++ == 0) do_start_receive();`. -/
def start_receive (w : System) : System :=
  let w1 := { w with receive_calls := wrap (w.receive_calls + 1) }
  if w.receive_calls = 0 then do_start_receive w1 else w1

end multiplexer

/-- A call on the public interface of the multiplexer, as a completion handler can make
it from inside a cycle. -/
inductive Call where
  | add (s : SocketId)
  | remove (s : SocketId)
  | async_accept (s : SocketId) (h : HandlerId)
  | start_receive
deriving DecidableEq, Repr

/-- Performs one call. -/
def Call.run : Call → System → System
  | Call.add s, w => multiplexer.add s w
  | Call.remove s, w => multiplexer.remove s w
  | Call.async_accept s h, w => multiplexer.async_accept s h w
  | Call.start_receive, w => multiplexer.start_receive w

/-- Performs calls one after the other. -/
def run_calls (cs : List Call) (w : System) : System :=
  cs.foldl (fun acc c => c.run acc) w

namespace multiplexer

/-- Method `multiplexer::process_accept`. On success the socket is bound to the endpoint
and the datagram is queued on it; `handler(error)` runs in both cases. `reentry` is what
the handler calls on the multiplexer while it runs. -/
def process_accept (error : error_code) (bytes_transferred : Nat) (socket : SocketId)
    (datagram : buffer_type) (current_remote_endpoint : endpoint_type) (handler : HandlerId)
    (reentry : List Call) (w : System) : System :=
  let w1 :=
    if error = 0 then
      (w.set_remote_endpoint socket current_remote_endpoint).enqueue socket error
        bytes_transferred datagram
    else w
  run_calls reentry (w1.emit [Event.handler handler error])

/-- Modelled from the spec: `socket_base::process_receive(error, header_data, size, handler)`
(`socket_base.hpp` is not among the sources): delivers the completed vectored read to the
socket, which resolves the continuation; `reentry` is what that continuation calls on the
multiplexer while it runs. -/
def process_receive (s : SocketId) (error : error_code) (header_data : Nat) (bytes : Nat)
    (handler : HandlerId) (reentry : List Call) (w : System) : System :=
  run_calls reentry (w.emit [Event.process_receive s error header_data bytes handler])

/-- The last statement of `process_peek`: `if (--receive_calls > 0) do_start_receive();`. -/
def rearm (w : System) : System :=
  let w1 := { w with receive_calls := wrap (w.receive_calls - 1) }
  if w1.receive_calls > 0 then do_start_receive w1 else w1

set_option linter.unusedVariables false in
/-- Method `multiplexer::process_peek(error, remote_endpoint)`, run when the peek
completes. `net` is what the UDP socket answers during the cycle and `reentry` what the
consumer resolved by the cycle calls on the multiplexer. The variable `error` is handed by
reference to `receive_from` in every branch, which overwrites it before it is read; the
same holds for `remote_endpoint` and `datagram_size`. -/
def process_peek (error : error_code) (remote_endpoint : endpoint_type) (net : Transport)
    (reentry : List Call) (w : System) : System :=
  let recipient := w.sockets.find remote_endpoint
  let datagram_size := net.bytes_readable
  let w2 :=
    match recipient with
    | none =>
      let datagram := make_buffer datagram_size
      let w1 := w.emit [Event.make_shared datagram_size]
      let r := net.receive_from datagram.length remote_endpoint
      let w1 := w1.emit [Event.receive_from (Target.datagram datagram.length) r.error r.bytes]
      let error := r.error
      let remote_endpoint := r.sender
      let datagram_size := r.bytes
      let datagram := buffer_write datagram r.data
      match w1.acceptor_queue with
      | [] => w1
      | input :: rest =>
        process_accept error datagram_size input.1 datagram remote_endpoint input.2 reentry
          { w1 with acceptor_queue := rest }
    | some crux_socket =>
      match w.dequeue crux_socket with
      | (some input, w1) =>
        let r := net.receive_from input.buffers.buffer_size remote_endpoint
        let w1 := w1.emit
          [Event.receive_from (Target.request crux_socket input.buffers) r.error r.bytes]
        let error := r.error
        let datagram_size := r.bytes
        process_receive crux_socket error input.header_data datagram_size input.handler
          reentry w1
      | (none, w1) =>
        let datagram := make_buffer datagram_size
        let w1 := w1.emit [Event.make_shared datagram_size]
        let r := net.receive_from datagram.length remote_endpoint
        let w1 := w1.emit [Event.receive_from (Target.datagram datagram.length) r.error r.bytes]
        let error := r.error
        let datagram_size := r.bytes
        let datagram := buffer_write datagram r.data
        w1.enqueue crux_socket error datagram_size datagram
  rearm w2

end multiplexer

/-- One step of the system: a call on the public interface, or the completion of the
outstanding peek (possible only while one is outstanding), which runs `process_peek`. -/
inductive Op where
  | call (c : Call)
  | peek (error : error_code) (remote_endpoint : endpoint_type) (net : Transport)
      (reentry : List Call)
deriving DecidableEq, Repr

/-- Performs one step; `none` when the step is not possible in this state. -/
def step (op : Op) (w : System) : Option System :=
  match op with
  | Op.call c => some (c.run w)
  | Op.peek error remote_endpoint net reentry =>
    if 0 < w.peeks then
      some (multiplexer.process_peek error remote_endpoint net reentry
        { w with peeks := w.peeks - 1 })
    else none

/-- Performs steps one after the other. -/
def run : List Op → System → Option System
  | [], w => some w
  | op :: ops, w =>
    match step op w with
    | none => none
    | some w1 => run ops w1

/-- The accept requests submitted by a list of calls, in order. -/
def accepts : List Call → List (SocketId × HandlerId)
  | [] => []
  | Call.async_accept s h :: cs => (s, h) :: accepts cs
  | _ :: cs => accepts cs

/-- The number of `async_accept` and `start_receive` calls in a list of calls. -/
def bumps : List Call → Nat
  | [] => 0
  | Call.async_accept _ _ :: cs => bumps cs + 1
  | Call.start_receive :: cs => bumps cs + 1
  | _ :: cs => bumps cs

/-- The socket an event delivers something to: the target of `enqueue` or
`process_receive`. -/
def Event.receiver : Event → Option SocketId
  | Event.enqueue s _ _ _ => some s
  | Event.process_receive s _ _ _ _ => some s
  | _ => none

/-- The socket an event operates on, for the events that are socket operations. -/
def Event.socket : Event → Option SocketId
  | Event.dequeue s => some s
  | Event.remote_endpoint s _ => some s
  | Event.enqueue s _ _ _ => some s
  | Event.process_receive s _ _ _ _ => some s
  | _ => none

/-- Whether an event is a consuming read of the pending datagram. -/
def Event.is_read : Event → Bool
  | Event.receive_from _ _ _ => true
  | _ => false

/-- Whether an event invokes a completion handler: the accept handler directly, or the
receive handler through `process_receive`. -/
def Event.is_completion : Event → Bool
  | Event.handler _ _ => true
  | Event.process_receive _ _ _ _ _ => true
  | _ => false

/-- What `enqueue` is given in a cycle that reads into a fresh datagram buffer: the error
code and byte count of the read, and the buffer of the queried length after the read. -/
def backlog_entry (net : Transport) (E : endpoint_type) : error_code × Nat × buffer_type :=
  ((net.receive_from net.bytes_readable E).error,
    (net.receive_from net.bytes_readable E).bytes,
    buffer_write (make_buffer net.bytes_readable) (net.receive_from net.bytes_readable E).data)

/-- Consecutive peek completions, each reporting the source endpoint `E`; every cycle has
its own peek error code, transport answer and re-entrant calls. -/
def peek_cycles (E : endpoint_type) :
    List (error_code × Transport × List Call) → System → System
  | [], w => w
  | c :: cs, w => peek_cycles E cs (multiplexer.process_peek c.1 E c.2.1 c.2.2 w)

/-- The arguments of an `enqueue` call. -/
def Event.enqueued : Event → Option (SocketId × error_code × Nat × buffer_type)
  | Event.enqueue s error bytes datagram => some (s, error, bytes, datagram)
  | _ => none

/-- The re-entrant calls that run in a cycle: those of the consumer the cycle resolves,
and none when the cycle resolves no consumer (dropped datagram, backlog enqueue). -/
def invoked (E : endpoint_type) (reentry : List Call) (w : System) : List Call :=
  match w.sockets.find E with
  | none => if w.acceptor_queue = [] then [] else reentry
  | some S => if ((w.socks S).pending).isSome then reentry else []

/-- Whether a call is `async_accept` or `start_receive`. -/
def Call.is_request : Call → Bool
  | Call.async_accept _ _ => true
  | Call.start_receive => true
  | _ => false

/-- The invariant of the receive loop: the counter is not negative, and a peek is
outstanding exactly when the counter is positive. -/
def loop_invariant (w : System) : Prop :=
  0 ≤ w.receive_calls ∧ w.peeks = if 0 < w.receive_calls then 1 else 0

/-- Whether an event arms a peek: the `async_receive_from` of `do_start_receive`. -/
def Event.is_peek : Event → Bool
  | Event.async_receive_from => true
  | _ => false

/-- The number of `async_accept` and `start_receive` calls a step makes in state `w`: the
call itself, or the re-entrant calls of the consumer that a peek completion resolves. -/
def Op.requests (op : Op) (w : System) : Nat :=
  match op with
  | Op.call c => bumps [c]
  | Op.peek _ E _ reentry => bumps (invoked E reentry w)

/-- The number of peek cycles a step completes. -/
def Op.cycles : Op → Nat
  | Op.call _ => 0
  | Op.peek _ _ _ _ => 1

/-- The number of `async_accept` and `start_receive` calls made while the steps run from
state `w`, re-entrant calls included. -/
def requests_made : List Op → System → Nat
  | [], _ => 0
  | op :: ops, w =>
    match step op w with
    | none => 0
    | some w1 => op.requests w + requests_made ops w1

/-- The number of peek cycles among the steps. -/
def cycles_completed (ops : List Op) : Nat :=
  (ops.map Op.cycles).sum

/-- The number of `async_accept` and `start_receive` steps among the steps. -/
def request_steps (ops : List Op) : Nat :=
  (ops.map (fun op => match op with
    | Op.call c => bumps [c]
    | Op.peek _ _ _ _ => 0)).sum

/-- Whether a step is a call, or a peek completion whose consumer calls nothing back. -/
def Op.is_plain : Op → Bool
  | Op.call _ => true
  | Op.peek _ _ _ reentry => reentry.isEmpty

/-- Whether a value lies in the range of a 32-bit `int`. -/
def in_range (x : Int) : Prop :=
  INT_MIN ≤ x ∧ x ≤ INT_MAX

/-- Whether the steps run from state `w` without an overflow of the interest counter:
before every step, the counter plus the `async_accept` and `start_receive` calls the step
makes does not exceed `INT_MAX`. -/
def no_overflow : List Op → System → Bool
  | [], _ => true
  | op :: ops, w =>
    decide (w.receive_calls + op.requests w ≤ INT_MAX) &&
      (match step op w with
       | none => true
       | some w1 => no_overflow ops w1)

/-! ## Lemmas on the multiplexer -/

theorem run_calls_nil (w : System) : run_calls [] w = w := rfl

theorem run_calls_cons (c : Call) (cs : List Call) (w : System) :
    run_calls (c :: cs) w = run_calls cs (c.run w) := rfl

theorem wrap_of_range (x : Int) (h1 : INT_MIN ≤ x) (h2 : x ≤ INT_MAX) : wrap x = x := by
  unfold INT_MIN at h1
  unfold INT_MAX at h2
  unfold wrap
  omega

theorem wrap_range (x : Int) : INT_MIN ≤ wrap x ∧ wrap x ≤ INT_MAX := by
  unfold wrap INT_MIN INT_MAX
  omega

theorem wrap_add (x y : Int) : wrap (wrap x + y) = wrap (x + y) := by
  unfold wrap
  omega

theorem wrap_wrap (x : Int) : wrap (wrap x) = wrap x := by
  unfold wrap
  omega

theorem call_run_effect (c : Call) (w : System) :
    (c.run w).socks = w.socks ∧
    (c.run w).acceptor_queue = w.acceptor_queue ++ accepts [c] ∧
    wrap (c.run w).receive_calls = wrap (w.receive_calls + bumps [c]) ∧
    ∃ n, (c.run w).trace = w.trace ++ List.replicate n Event.async_receive_from ∧
      (c.run w).peeks = w.peeks + n ∧
      (0 ≤ w.receive_calls → w.receive_calls + bumps [c] ≤ INT_MAX →
        (c.run w).receive_calls = w.receive_calls + bumps [c] ∧
        (0 < w.receive_calls → n = 0)) := by
  cases c with
  | add s => exact ⟨rfl, by simp [Call.run, multiplexer.add, accepts], by
      simp [Call.run, multiplexer.add, bumps], 0, by simp [Call.run, multiplexer.add, bumps]⟩
  | remove s => exact ⟨rfl, by simp [Call.run, multiplexer.remove, accepts], by
      simp [Call.run, multiplexer.remove, bumps], 0, by
      simp [Call.run, multiplexer.remove, bumps]⟩
  | async_accept s h =>
    have hb : ((bumps [Call.async_accept s h] : Nat) : Int) = 1 := by simp [bumps]
    by_cases h0 : w.receive_calls = 0
    · refine ⟨?_, ?_, ?_, 1, ?_, ?_, ?_⟩
      · simp [Call.run, multiplexer.async_accept, multiplexer.do_start_receive, h0]
      · simp [Call.run, multiplexer.async_accept, multiplexer.do_start_receive, h0, accepts]
      · rw [hb]
        simp [Call.run, multiplexer.async_accept, multiplexer.do_start_receive, h0, wrap_wrap]
      · simp [Call.run, multiplexer.async_accept, multiplexer.do_start_receive, h0]
      · simp [Call.run, multiplexer.async_accept, multiplexer.do_start_receive, h0]
      · intro _ hmax
        rw [hb] at hmax ⊢
        refine ⟨?_, fun hpos => by omega⟩
        simp only [Call.run, multiplexer.async_accept, multiplexer.do_start_receive, h0, if_true]
        exact wrap_of_range _ (by unfold INT_MIN; omega) (by rw [h0] at hmax; exact hmax)
    · refine ⟨?_, ?_, ?_, 0, ?_, ?_, ?_⟩
      · simp [Call.run, multiplexer.async_accept, multiplexer.do_start_receive, h0]
      · simp [Call.run, multiplexer.async_accept, multiplexer.do_start_receive, h0, accepts]
      · rw [hb]
        simp [Call.run, multiplexer.async_accept, multiplexer.do_start_receive, h0, wrap_wrap]
      · simp [Call.run, multiplexer.async_accept, multiplexer.do_start_receive, h0]
      · simp [Call.run, multiplexer.async_accept, multiplexer.do_start_receive, h0]
      · intro hpos hmax
        rw [hb] at hmax ⊢
        refine ⟨?_, fun _ => rfl⟩
        simp only [Call.run, multiplexer.async_accept, h0, if_false]
        exact wrap_of_range _ (by unfold INT_MIN; omega) hmax
  | start_receive =>
    have hb : ((bumps [Call.start_receive] : Nat) : Int) = 1 := by simp [bumps]
    by_cases h0 : w.receive_calls = 0
    · refine ⟨?_, ?_, ?_, 1, ?_, ?_, ?_⟩
      · simp [Call.run, multiplexer.start_receive, multiplexer.do_start_receive, h0]
      · simp [Call.run, multiplexer.start_receive, multiplexer.do_start_receive, h0, accepts]
      · rw [hb]
        simp [Call.run, multiplexer.start_receive, multiplexer.do_start_receive, h0, wrap_wrap]
      · simp [Call.run, multiplexer.start_receive, multiplexer.do_start_receive, h0]
      · simp [Call.run, multiplexer.start_receive, multiplexer.do_start_receive, h0]
      · intro _ hmax
        rw [hb] at hmax ⊢
        refine ⟨?_, fun hpos => by omega⟩
        simp only [Call.run, multiplexer.start_receive, multiplexer.do_start_receive, h0, if_true]
        exact wrap_of_range _ (by unfold INT_MIN; omega) (by rw [h0] at hmax; exact hmax)
    · refine ⟨?_, ?_, ?_, 0, ?_, ?_, ?_⟩
      · simp [Call.run, multiplexer.start_receive, multiplexer.do_start_receive, h0]
      · simp [Call.run, multiplexer.start_receive, multiplexer.do_start_receive, h0, accepts]
      · rw [hb]
        simp [Call.run, multiplexer.start_receive, multiplexer.do_start_receive, h0, wrap_wrap]
      · simp [Call.run, multiplexer.start_receive, multiplexer.do_start_receive, h0]
      · simp [Call.run, multiplexer.start_receive, multiplexer.do_start_receive, h0]
      · intro hpos hmax
        rw [hb] at hmax ⊢
        refine ⟨?_, fun _ => rfl⟩
        simp only [Call.run, multiplexer.start_receive, h0, if_false]
        exact wrap_of_range _ (by unfold INT_MIN; omega) hmax

theorem accepts_cons (c : Call) (cs : List Call) : accepts (c :: cs) = accepts [c] ++ accepts cs := by
  cases c <;> simp [accepts]

theorem bumps_cons (c : Call) (cs : List Call) : bumps (c :: cs) = bumps [c] + bumps cs := by
  cases c <;> simp [bumps] <;> omega

theorem run_calls_effect (cs : List Call) : ∀ w : System,
    (run_calls cs w).socks = w.socks ∧
    (run_calls cs w).acceptor_queue = w.acceptor_queue ++ accepts cs ∧
    wrap (run_calls cs w).receive_calls = wrap (w.receive_calls + bumps cs) ∧
    ∃ n, (run_calls cs w).trace = w.trace ++ List.replicate n Event.async_receive_from ∧
      (run_calls cs w).peeks = w.peeks + n ∧
      (0 < w.receive_calls → w.receive_calls + bumps cs ≤ INT_MAX →
        n = 0 ∧ (run_calls cs w).receive_calls = w.receive_calls + bumps cs) := by
  induction cs with
  | nil => intro w; exact ⟨rfl, by simp [run_calls_nil, accepts], by simp [run_calls_nil, bumps],
      0, by simp [run_calls_nil, bumps]⟩
  | cons c cs ih =>
    intro w
    obtain ⟨h1, h2, h3, n, h4, h5, h6⟩ := call_run_effect c w
    obtain ⟨k1, k2, k3, m, k4, k5, k6⟩ := ih (c.run w)
    have hb : ((bumps (c :: cs) : Nat) : Int) = (bumps [c] : Int) + (bumps cs : Int) := by
      rw [bumps_cons c cs]; push_cast; rfl
    rw [run_calls_cons]
    refine ⟨by rw [k1, h1], ?_, ?_, n + m, ?_, ?_, ?_⟩
    · rw [k2, h2, accepts_cons c cs, List.append_assoc]
    · rw [k3, ← wrap_add (c.run w).receive_calls, h3, wrap_add, hb, add_assoc]
    · rw [k4, h4, List.append_assoc, ← List.replicate_add]
    · rw [k5, h5]; ring
    · intro hpos hmax
      rw [hb] at hmax
      have hmax1 : w.receive_calls + (bumps [c] : Int) ≤ INT_MAX := by
        have : (0 : Int) ≤ (bumps cs : Int) := Int.ofNat_nonneg _
        omega
      obtain ⟨hrc, hn⟩ := h6 (le_of_lt hpos) hmax1
      have hn := hn hpos
      have hpos1 : 0 < (c.run w).receive_calls := by
        rw [hrc]
        have : (0 : Int) ≤ (bumps [c] : Int) := Int.ofNat_nonneg _
        omega
      obtain ⟨hm, hrc1⟩ := k6 hpos1 (by rw [hrc, add_assoc]; exact hmax)
      refine ⟨by omega, ?_⟩
      rw [hrc1, hrc, hb, add_assoc]

theorem rearm_effect (w : System) :
    (multiplexer.rearm w).sockets = w.sockets ∧
    (multiplexer.rearm w).acceptor_queue = w.acceptor_queue ∧
    (multiplexer.rearm w).socks = w.socks ∧
    (multiplexer.rearm w).receive_calls = wrap (w.receive_calls - 1) ∧
    (multiplexer.rearm w).trace
      = w.trace ++ (if 0 < wrap (w.receive_calls - 1) then [Event.async_receive_from]
                    else []) ∧
    (multiplexer.rearm w).peeks
      = w.peeks + (if 0 < wrap (w.receive_calls - 1) then 1 else 0) := by
  by_cases h : 0 < wrap (w.receive_calls - 1)
  · simp [multiplexer.rearm, multiplexer.do_start_receive, h]
  · simp [multiplexer.rearm, multiplexer.do_start_receive, h]

theorem peek_drop_eq (error : error_code) (E : endpoint_type) (net : Transport)
    (reentry : List Call) (w : System)
    (hfind : w.sockets.find E = none) (hq : w.acceptor_queue = []) :
    multiplexer.process_peek error E net reentry w
      = multiplexer.rearm
          ((w.emit [Event.make_shared net.bytes_readable]).emit
            [Event.receive_from (Target.datagram net.bytes_readable)
              (net.receive_from net.bytes_readable E).error
              (net.receive_from net.bytes_readable E).bytes]) := by
  simp [multiplexer.process_peek, hfind, hq, System.emit, make_buffer]

theorem rearm_run_calls (reentry : List Call) (w : System) :
    (multiplexer.rearm (run_calls reentry w)).socks = w.socks ∧
    (multiplexer.rearm (run_calls reentry w)).acceptor_queue
      = w.acceptor_queue ++ accepts reentry ∧
    (multiplexer.rearm (run_calls reentry w)).receive_calls
      = wrap (w.receive_calls + bumps reentry - 1) ∧
    ∃ n, (multiplexer.rearm (run_calls reentry w)).trace
        = w.trace ++ List.replicate n Event.async_receive_from ∧
      (multiplexer.rearm (run_calls reentry w)).peeks = w.peeks + n ∧
      (0 < w.receive_calls → w.receive_calls + bumps reentry ≤ INT_MAX →
        n = if 1 < w.receive_calls + bumps reentry then 1 else 0) := by
  obtain ⟨h1, h2, h3, n, h4, h5, h6⟩ := run_calls_effect reentry w
  obtain ⟨_, r2, r3, r4, r5, r6⟩ := rearm_effect (run_calls reentry w)
  have hrc : wrap ((run_calls reentry w).receive_calls - 1)
      = wrap (w.receive_calls + bumps reentry - 1) := by
    have e1 := wrap_add (run_calls reentry w).receive_calls (-1)
    have e2 := wrap_add (w.receive_calls + bumps reentry) (-1)
    rw [h3, e2] at e1
    simpa [sub_eq_add_neg] using e1.symm
  refine ⟨by rw [r3, h1], by rw [r2, h2], by rw [r4, hrc], ?_⟩
  by_cases hc : 0 < wrap ((run_calls reentry w).receive_calls - 1)
  · refine ⟨n + 1, ?_, ?_, ?_⟩
    · rw [r5, h4, if_pos hc, List.append_assoc, List.replicate_succ']
    · rw [r6, h5, if_pos hc]; ring
    · intro hpos hmax
      obtain ⟨hn, hx⟩ := h6 hpos hmax
      rw [hx, wrap_of_range _ (by unfold INT_MIN; omega) (by omega)] at hc
      rw [hn, if_pos (by omega)]
  · refine ⟨n, ?_, ?_, ?_⟩
    · rw [r5, h4, if_neg hc, List.append_nil]
    · rw [r6, h5, if_neg hc]; ring
    · intro hpos hmax
      obtain ⟨hn, hx⟩ := h6 hpos hmax
      rw [hx, wrap_of_range _ (by unfold INT_MIN; omega) (by omega)] at hc
      rw [hn, if_neg (by omega)]

theorem peek_accept_eq (error : error_code) (E : endpoint_type) (net : Transport)
    (reentry : List Call) (w : System) (A : SocketId) (h : HandlerId)
    (rest : List (SocketId × HandlerId))
    (hfind : w.sockets.find E = none) (hq : w.acceptor_queue = (A, h) :: rest) :
    multiplexer.process_peek error E net reentry w
      = multiplexer.rearm
          (multiplexer.process_accept (net.receive_from net.bytes_readable E).error
            (net.receive_from net.bytes_readable E).bytes A
            (buffer_write (make_buffer net.bytes_readable)
              (net.receive_from net.bytes_readable E).data)
            (net.receive_from net.bytes_readable E).sender h reentry
            { w with
              acceptor_queue := rest
              trace := w.trace ++ [Event.make_shared net.bytes_readable,
                Event.receive_from (Target.datagram net.bytes_readable)
                  (net.receive_from net.bytes_readable E).error
                  (net.receive_from net.bytes_readable E).bytes] }) := by
  simp [multiplexer.process_peek, hfind, hq, System.emit, make_buffer]

theorem peek_receive_eq (error : error_code) (E : endpoint_type) (net : Transport)
    (reentry : List Call) (w : System) (S : SocketId) (r : Input)
    (hfind : w.sockets.find E = some S) (hp : (w.dequeue S).1 = some r) :
    multiplexer.process_peek error E net reentry w
      = multiplexer.rearm
          (run_calls reentry
            { w with
              socks := Function.update w.socks S { w.socks S with pending := none }
              trace := w.trace ++ [Event.dequeue S,
                Event.receive_from (Target.request S r.buffers)
                  (net.receive_from r.buffers.buffer_size E).error
                  (net.receive_from r.buffers.buffer_size E).bytes,
                Event.process_receive S (net.receive_from r.buffers.buffer_size E).error
                  r.header_data (net.receive_from r.buffers.buffer_size E).bytes r.handler] }) := by
  simp only [System.dequeue] at hp
  simp [multiplexer.process_peek, hfind, hp, System.emit, System.dequeue,
    multiplexer.process_receive]

theorem peek_enqueue_eq (error : error_code) (E : endpoint_type) (net : Transport)
    (reentry : List Call) (w : System) (S : SocketId)
    (hfind : w.sockets.find E = some S) (hp : (w.dequeue S).1 = none) :
    multiplexer.process_peek error E net reentry w
      = multiplexer.rearm
          { w with
            socks := Function.update w.socks S
              { w.socks S with
                pending := none
                backlog := (w.socks S).backlog ++
                  [((net.receive_from net.bytes_readable E).error,
                    (net.receive_from net.bytes_readable E).bytes,
                    buffer_write (make_buffer net.bytes_readable)
                      (net.receive_from net.bytes_readable E).data)] }
            trace := w.trace ++ [Event.dequeue S, Event.make_shared net.bytes_readable,
              Event.receive_from (Target.datagram net.bytes_readable)
                (net.receive_from net.bytes_readable E).error
                (net.receive_from net.bytes_readable E).bytes,
              Event.enqueue S (net.receive_from net.bytes_readable E).error
                (net.receive_from net.bytes_readable E).bytes
                (buffer_write (make_buffer net.bytes_readable)
                  (net.receive_from net.bytes_readable E).data)] } := by
  simp only [System.dequeue] at hp
  simp [multiplexer.process_peek, hfind, hp, System.emit, System.dequeue,
    System.enqueue, make_buffer]

theorem receive_from_error (net : Transport) (c : Nat) (e : endpoint_type) :
    (net.receive_from c e).error = net.read_error := by
  unfold Transport.receive_from
  split <;> simp_all

theorem receive_from_bytes (net : Transport) (c : Nat) (e : endpoint_type) :
    (net.receive_from c e).bytes
      = if net.read_error = 0 then min c net.datagram.data.length else 0 := by
  unfold Transport.receive_from
  split <;> simp_all

theorem receive_from_data (net : Transport) (c : Nat) (e : endpoint_type) :
    (net.receive_from c e).data
      = if net.read_error = 0 then net.datagram.data.take c else [] := by
  unfold Transport.receive_from
  split <;> simp_all

theorem receive_from_sender (net : Transport) (c : Nat) (e : endpoint_type) :
    (net.receive_from c e).sender
      = if net.read_error = 0 then net.datagram.source else e := by
  unfold Transport.receive_from
  split <;> simp_all

theorem filter_replicate_arm (p : Event → Bool) (hp : p Event.async_receive_from = false)
    (n : Nat) : (List.replicate n Event.async_receive_from).filter p = [] := by
  induction n with
  | zero => rfl
  | succ n ih => simp [List.replicate_succ, hp]

theorem filterMap_replicate_arm {β : Type} (f : Event → Option β)
    (hf : f Event.async_receive_from = none) (n : Nat) :
    (List.replicate n Event.async_receive_from).filterMap f = [] := by
  induction n with
  | zero => rfl
  | succ n ih => simp [List.replicate_succ, hf]

theorem process_peek_shape (error : error_code) (E : endpoint_type) (net : Transport)
    (reentry : List Call) (w : System) :
    ∃ wX : System,
      multiplexer.process_peek error E net reentry w
        = multiplexer.rearm (run_calls (invoked E reentry w) wX) ∧
      wX.receive_calls = w.receive_calls ∧ wX.peeks = w.peeks ∧ wX.sockets = w.sockets ∧
      wX.acceptor_queue
        = (if w.sockets.find E = none then w.acceptor_queue.tail else w.acceptor_queue) ∧
      ∃ evs, wX.trace = w.trace ++ evs := by
  cases hfind : w.sockets.find E with
  | none =>
    cases hq : w.acceptor_queue with
    | nil =>
      rw [peek_drop_eq error E net reentry w hfind hq]
      simp only [invoked, hfind, hq, if_true]
      refine ⟨_, rfl, ?_⟩
      simp [System.emit, hq]
    | cons a rest =>
      obtain ⟨A, h⟩ := a
      rw [peek_accept_eq error E net reentry w A h rest hfind hq]
      have hinv : invoked E reentry w = reentry := by simp [invoked, hfind, hq]
      rw [hinv]
      by_cases herr : (net.receive_from net.bytes_readable E).error = 0
      · simp only [multiplexer.process_accept, herr, if_true]
        refine ⟨_, rfl, ?_⟩
        simp [System.emit, System.enqueue, System.set_remote_endpoint]
      · simp only [multiplexer.process_accept, herr, if_false]
        refine ⟨_, rfl, ?_⟩
        simp [System.emit]
  | some S =>
    cases hp : (w.socks S).pending with
    | none =>
      rw [peek_enqueue_eq error E net reentry w S hfind (by simp [System.dequeue, hp])]
      simp only [invoked, hfind, hp, Option.isSome_none, Bool.false_eq_true, if_false]
      refine ⟨_, rfl, ?_⟩
      simp
    | some r =>
      rw [peek_receive_eq error E net reentry w S r hfind (by simp [System.dequeue, hp])]
      simp only [invoked, hfind, hp, Option.isSome_some, if_true]
      refine ⟨_, rfl, ?_⟩
      simp

theorem process_peek_counts (error : error_code) (E : endpoint_type) (net : Transport)
    (reentry : List Call) (w : System) :
    (multiplexer.process_peek error E net reentry w).receive_calls
      = wrap (w.receive_calls + bumps (invoked E reentry w) - 1) ∧
    (multiplexer.process_peek error E net reentry w).acceptor_queue
      = (if w.sockets.find E = none then w.acceptor_queue.tail else w.acceptor_queue)
        ++ accepts (invoked E reentry w) ∧
    (0 < w.receive_calls → w.receive_calls + bumps (invoked E reentry w) ≤ INT_MAX →
      (multiplexer.process_peek error E net reentry w).receive_calls
        = w.receive_calls + bumps (invoked E reentry w) - 1 ∧
      (multiplexer.process_peek error E net reentry w).peeks
        = w.peeks + if 1 < w.receive_calls + bumps (invoked E reentry w) then 1 else 0) := by
  obtain ⟨wX, h1, h2, h3, _, h5, _⟩ := process_peek_shape error E net reentry w
  obtain ⟨_, r2, r3, n, _, r5, r6⟩ := rearm_run_calls (invoked E reentry w) wX
  rw [h1]
  refine ⟨by rw [r3, h2], by rw [r2, h5], ?_⟩
  intro hpos hmax
  have hb : (0 : Int) ≤ (bumps (invoked E reentry w) : Int) := Int.ofNat_nonneg _
  refine ⟨?_, ?_⟩
  · rw [r3, h2]
    exact wrap_of_range _ (by unfold INT_MIN; omega) (by omega)
  · rw [r5, h3, r6 (by rw [h2]; exact hpos) (by rw [h2]; exact hmax), h2]

theorem no_overflow_cons (op : Op) (ops : List Op) (w w1 : System)
    (h : no_overflow (op :: ops) w = true) (hs : step op w = some w1) :
    w.receive_calls + op.requests w ≤ INT_MAX ∧ no_overflow ops w1 = true := by
  simp only [no_overflow, hs, Bool.and_eq_true, decide_eq_true_eq] at h
  exact h

theorem loop_invariant_call (c : Call) (w : System) (h : loop_invariant w)
    (hmax : w.receive_calls + bumps [c] ≤ INT_MAX) :
    loop_invariant (c.run w) := by
  obtain ⟨h0, hp⟩ := h
  obtain ⟨_, _, _, n, _, c5, c6⟩ := call_run_effect c w
  obtain ⟨hrc, hn⟩ := c6 h0 hmax
  unfold loop_invariant
  have hb : (0 : Int) ≤ (bumps [c] : Int) := Int.ofNat_nonneg _
  refine ⟨by rw [hrc]; omega, ?_⟩
  rw [c5, hrc]
  by_cases hpos : 0 < w.receive_calls
  · rw [hn hpos, hp, if_pos hpos, if_pos (by omega)]
  · have hz : w.receive_calls = 0 := by omega
    rw [if_neg hpos] at hp
    cases c with
    | add s =>
      have hn0 : n = 0 := by
        have := c5; simp [Call.run, multiplexer.add, hp] at this; omega
      simp [bumps, hz, hn0, hp]
    | remove s =>
      have hn0 : n = 0 := by
        have := c5; simp [Call.run, multiplexer.remove, hp] at this; omega
      simp [bumps, hz, hn0, hp]
    | async_accept s hd =>
      have hn1 : n = 1 := by
        have := c5
        simp [Call.run, multiplexer.async_accept, multiplexer.do_start_receive, hz, hp] at this
        omega
      simp [bumps, hz, hn1, hp]
    | start_receive =>
      have hn1 : n = 1 := by
        have := c5
        simp [Call.run, multiplexer.start_receive, multiplexer.do_start_receive, hz, hp] at this
        omega
      simp [bumps, hz, hn1, hp]

theorem loop_invariant_step (op : Op) (w w1 : System) (h : loop_invariant w)
    (hmax : w.receive_calls + op.requests w ≤ INT_MAX)
    (hs : step op w = some w1) : loop_invariant w1 := by
  cases op with
  | call c =>
    simp only [step, Option.some.injEq] at hs
    subst hs
    exact loop_invariant_call c w h hmax
  | peek error E net reentry =>
    obtain ⟨h0, hp⟩ := h
    by_cases hk : 0 < w.peeks
    · simp only [step, hk, if_true, Option.some.injEq] at hs
      subst hs
      have hpos : 0 < w.receive_calls := by
        by_contra hcon
        rw [if_neg hcon] at hp
        omega
      rw [if_pos hpos] at hp
      obtain ⟨_, _, c3⟩ := process_peek_counts error E net reentry
        { w with peeks := w.peeks - 1 }
      have hinv : invoked E reentry { w with peeks := w.peeks - 1 } = invoked E reentry w :=
        rfl
      rw [hinv] at c3
      have hmax1 : w.receive_calls + (bumps (invoked E reentry w) : Int) ≤ INT_MAX := hmax
      obtain ⟨c1a, c3a⟩ := c3 hpos hmax1
      generalize bumps (invoked E reentry w) = b at c1a c3a
      have c3b : (multiplexer.process_peek error E net reentry
          { w with peeks := w.peeks - 1 }).peeks
            = w.peeks - 1 + if 1 < w.receive_calls + (b : Int) then 1 else 0 := c3a
      unfold loop_invariant
      rw [c1a, c3b, hp]
      constructor
      · show 0 ≤ w.receive_calls + (b : Int) - 1
        omega
      · show 1 - 1 + (if 1 < w.receive_calls + (b : Int) then 1 else 0)
            = if 0 < w.receive_calls + (b : Int) - 1 then 1 else 0
        by_cases hb : 1 < w.receive_calls + (b : Int)
        · rw [if_pos hb, if_pos (by omega)]
        · rw [if_neg hb, if_neg (by omega)]
    · simp [step, hk] at hs

theorem loop_invariant_run (ops : List Op) :
    ∀ w w1 : System, loop_invariant w → no_overflow ops w = true →
      run ops w = some w1 → loop_invariant w1 := by
  induction ops with
  | nil =>
    intro w w1 h _ hr
    simp only [run, Option.some.injEq] at hr
    subst hr
    exact h
  | cons op ops ih =>
    intro w w1 h hno hr
    cases hs : step op w with
    | none => simp [run, hs] at hr
    | some w2 =>
      simp only [run, hs] at hr
      obtain ⟨hmax, hno2⟩ := no_overflow_cons op ops w w2 hno hs
      exact ih w2 w1 (loop_invariant_step op w w2 h hmax hs) hno2 hr

theorem loop_invariant_create (socks : SocketId → socket_base) :
    loop_invariant (multiplexer.create socks) := by
  simp [loop_invariant, multiplexer.create]

theorem invoked_cases (E : endpoint_type) (reentry : List Call) (w : System) :
    invoked E reentry w = reentry ∨ invoked E reentry w = [] := by
  unfold invoked
  split <;> split <;> simp

theorem buffer_write_full (d : buffer_type) :
    buffer_write (make_buffer d.length) d = d := by
  simp [buffer_write, make_buffer]

theorem accept_cycle_ok (error : error_code) (E : endpoint_type) (net : Transport)
    (reentry : List Call) (w : System) (A : SocketId) (h : HandlerId)
    (rest : List (SocketId × HandlerId))
    (hfind : w.sockets.find E = none) (hq : w.acceptor_queue = (A, h) :: rest)
    (hok : net.read_error = 0) :
    (multiplexer.process_peek error E net reentry w).acceptor_queue
      = rest ++ accepts reentry ∧
    (multiplexer.process_peek error E net reentry w).socks
      = Function.update w.socks A
          { w.socks A with
            remote := net.datagram.source
            backlog := (w.socks A).backlog
              ++ [(0, net.datagram.data.length, net.datagram.data)] } ∧
    ∃ n, (multiplexer.process_peek error E net reentry w).trace
      = w.trace ++ ([Event.make_shared net.datagram.data.length,
          Event.receive_from (Target.datagram net.datagram.data.length) 0
            net.datagram.data.length,
          Event.remote_endpoint A net.datagram.source,
          Event.enqueue A 0 net.datagram.data.length net.datagram.data,
          Event.handler h 0] ++ List.replicate n Event.async_receive_from) := by
  rw [peek_accept_eq error E net reentry w A h rest hfind hq]
  have herr : (net.receive_from net.bytes_readable E).error = 0 := by
    rw [receive_from_error, hok]
  simp only [multiplexer.process_accept, herr, if_true]
  obtain ⟨h1, h2, _, n, h4, _, _⟩ := rearm_run_calls reentry
    (((({ w with
          acceptor_queue := rest
          trace := w.trace ++ [Event.make_shared net.bytes_readable,
            Event.receive_from (Target.datagram net.bytes_readable) 0
              (net.receive_from net.bytes_readable E).bytes] } : System).set_remote_endpoint A
        (net.receive_from net.bytes_readable E).sender).enqueue A 0
        (net.receive_from net.bytes_readable E).bytes
        (buffer_write (make_buffer net.bytes_readable)
          (net.receive_from net.bytes_readable E).data)).emit [Event.handler h 0])
  refine ⟨by rw [h2]; rfl, ?_, n, ?_⟩
  · rw [h1]
    simp [System.emit, System.enqueue, System.set_remote_endpoint, receive_from_bytes,
      receive_from_data, receive_from_sender, hok, Transport.bytes_readable,
      buffer_write_full]
  · rw [h4]
    simp [System.emit, System.enqueue, System.set_remote_endpoint, receive_from_bytes,
      receive_from_data, receive_from_sender, hok, Transport.bytes_readable,
      buffer_write_full]

theorem accept_cycle_err (error : error_code) (E : endpoint_type) (net : Transport)
    (reentry : List Call) (w : System) (A : SocketId) (h : HandlerId)
    (rest : List (SocketId × HandlerId))
    (hfind : w.sockets.find E = none) (hq : w.acceptor_queue = (A, h) :: rest)
    (hbad : net.read_error ≠ 0) :
    (multiplexer.process_peek error E net reentry w).acceptor_queue
      = rest ++ accepts reentry ∧
    (multiplexer.process_peek error E net reentry w).socks = w.socks ∧
    ∃ n, (multiplexer.process_peek error E net reentry w).trace
      = w.trace ++ ([Event.make_shared net.datagram.data.length,
          Event.receive_from (Target.datagram net.datagram.data.length) net.read_error 0,
          Event.handler h net.read_error] ++ List.replicate n Event.async_receive_from) := by
  rw [peek_accept_eq error E net reentry w A h rest hfind hq]
  have herr : ¬ (net.receive_from net.bytes_readable E).error = 0 := by
    rw [receive_from_error]; exact hbad
  simp only [multiplexer.process_accept, herr, if_false]
  obtain ⟨h1, h2, _, n, h4, _, _⟩ := rearm_run_calls reentry
    (({ w with
        acceptor_queue := rest
        trace := w.trace ++ [Event.make_shared net.bytes_readable,
          Event.receive_from (Target.datagram net.bytes_readable)
            (net.receive_from net.bytes_readable E).error
            (net.receive_from net.bytes_readable E).bytes] } : System).emit
      [Event.handler h (net.receive_from net.bytes_readable E).error])
  refine ⟨by rw [h2]; rfl, by rw [h1]; rfl, n, ?_⟩
  rw [h4]
  simp [System.emit, receive_from_bytes, receive_from_error, hbad, Transport.bytes_readable]

theorem receive_cycle (error : error_code) (E : endpoint_type) (net : Transport)
    (reentry : List Call) (w : System) (S : SocketId) (r : Input)
    (hfind : w.sockets.find E = some S) (hdeq : (w.dequeue S).1 = some r) :
    (multiplexer.process_peek error E net reentry w).acceptor_queue
      = w.acceptor_queue ++ accepts reentry ∧
    (multiplexer.process_peek error E net reentry w).socks
      = Function.update w.socks S { w.socks S with pending := none } ∧
    ∃ n, (multiplexer.process_peek error E net reentry w).trace
      = w.trace ++ ([Event.dequeue S,
          Event.receive_from (Target.request S r.buffers) net.read_error
            (net.receive_from r.buffers.buffer_size E).bytes,
          Event.process_receive S net.read_error r.header_data
            (net.receive_from r.buffers.buffer_size E).bytes r.handler]
        ++ List.replicate n Event.async_receive_from) := by
  rw [peek_receive_eq error E net reentry w S r hfind hdeq]
  obtain ⟨h1, h2, _, n, h4, _, _⟩ := rearm_run_calls reentry
    { w with
      socks := Function.update w.socks S { w.socks S with pending := none }
      trace := w.trace ++ [Event.dequeue S,
        Event.receive_from (Target.request S r.buffers)
          (net.receive_from r.buffers.buffer_size E).error
          (net.receive_from r.buffers.buffer_size E).bytes,
        Event.process_receive S (net.receive_from r.buffers.buffer_size E).error
          r.header_data (net.receive_from r.buffers.buffer_size E).bytes r.handler] }
  refine ⟨by rw [h2], by rw [h1], n, ?_⟩
  rw [h4]
  simp [receive_from_error]

theorem drop_cycle (error : error_code) (E : endpoint_type) (net : Transport)
    (reentry : List Call) (w : System)
    (hfind : w.sockets.find E = none) (hq : w.acceptor_queue = []) :
    (multiplexer.process_peek error E net reentry w).acceptor_queue = [] ∧
    (multiplexer.process_peek error E net reentry w).socks = w.socks ∧
    ∃ n, (multiplexer.process_peek error E net reentry w).trace
      = w.trace ++ ([Event.make_shared net.bytes_readable,
          Event.receive_from (Target.datagram net.bytes_readable) net.read_error
            (net.receive_from net.bytes_readable E).bytes]
        ++ List.replicate n Event.async_receive_from) := by
  rw [peek_drop_eq error E net reentry w hfind hq]
  refine ⟨by rw [(rearm_effect _).2.1]; exact hq, by rw [(rearm_effect _).2.2.1]; rfl,
    if 0 < wrap (w.receive_calls - 1) then 1 else 0, ?_⟩
  rw [(rearm_effect _).2.2.2.2.1]
  by_cases h : 0 < wrap (w.receive_calls - 1) <;> simp [System.emit, receive_from_error, h]

theorem socket_map_erase_absent (m : socket_map) (e : endpoint_type)
    (h : m.find e = none) : m.erase e = m := by
  induction m with
  | nil => rfl
  | cons kv m ih =>
    obtain ⟨k, v⟩ := kv
    by_cases hk : k = e
    · simp [socket_map.find, hk] at h
    · simp only [socket_map.find, hk, if_false] at h
      simp only [socket_map.erase, hk, if_false, ih h]

theorem socket_map_find_erase (m : socket_map) (e e1 : endpoint_type) :
    (m.erase e).find e1 = if e1 = e then none else m.find e1 := by
  induction m with
  | nil => simp [socket_map.erase, socket_map.find]
  | cons kv m ih =>
    obtain ⟨k, v⟩ := kv
    by_cases hk : k = e
    · subst hk
      by_cases h1 : e1 = k
      · subst h1
        simpa [socket_map.erase] using ih
      · have h2 : ¬ k = e1 := fun h => h1 h.symm
        simp [socket_map.erase, socket_map.find, ih, h1, h2]
    · by_cases h1 : k = e1
      · subst h1
        simp [socket_map.erase, socket_map.find, hk]
      · simp [socket_map.erase, socket_map.find, hk, h1, ih]

theorem async_accept_effect (s : SocketId) (h : HandlerId) (w : System) :
    (multiplexer.async_accept s h w).acceptor_queue = w.acceptor_queue ++ [(s, h)] ∧
    (multiplexer.async_accept s h w).sockets = w.sockets ∧
    (multiplexer.async_accept s h w).socks = w.socks := by
  by_cases h0 : w.receive_calls = 0 <;>
    simp [multiplexer.async_accept, multiplexer.do_start_receive, h0]

theorem process_peek_sockets_nil (error : error_code) (E : endpoint_type) (net : Transport)
    (w : System) : (multiplexer.process_peek error E net [] w).sockets = w.sockets := by
  obtain ⟨wX, e1, _, _, e4, _, _⟩ := process_peek_shape error E net [] w
  rw [e1, (rearm_effect _).1]
  rcases invoked_cases E [] w with h1 | h1 <;> rw [h1, run_calls_nil, e4]

theorem enqueue_cycle (error : error_code) (E : endpoint_type) (net : Transport)
    (reentry : List Call) (w : System) (S : SocketId)
    (hfind : w.sockets.find E = some S) (hdeq : (w.dequeue S).1 = none) :
    (multiplexer.process_peek error E net reentry w).sockets = w.sockets ∧
    (multiplexer.process_peek error E net reentry w).acceptor_queue = w.acceptor_queue ∧
    (multiplexer.process_peek error E net reentry w).receive_calls
      = wrap (w.receive_calls - 1) ∧
    (multiplexer.process_peek error E net reentry w).socks
      = Function.update w.socks S
          { w.socks S with
            pending := none
            backlog := (w.socks S).backlog ++ [backlog_entry net E] } ∧
    (multiplexer.process_peek error E net reentry w).trace
      = w.trace ++ ([Event.dequeue S, Event.make_shared net.bytes_readable,
          Event.receive_from (Target.datagram net.bytes_readable) (backlog_entry net E).1
            (backlog_entry net E).2.1,
          Event.enqueue S (backlog_entry net E).1 (backlog_entry net E).2.1
            (backlog_entry net E).2.2]
        ++ (if 0 < wrap (w.receive_calls - 1) then [Event.async_receive_from] else [])) := by
  rw [peek_enqueue_eq error E net reentry w S hfind hdeq]
  refine ⟨?_, ?_, ?_, ?_, ?_⟩
  · rw [(rearm_effect _).1]
  · rw [(rearm_effect _).2.1]
  · rw [(rearm_effect _).2.2.2.1]
  · rw [(rearm_effect _).2.2.1]; rfl
  · rw [(rearm_effect _).2.2.2.2.1]; simp [backlog_entry]

theorem socket_map_find_insert_absent (m : socket_map) (k : endpoint_type) (v : SocketId)
    (h : m.find k = none) (e : endpoint_type) :
    (m.insert (k, v)).find e = if e = k then some v else m.find e := by
  by_cases he : e = k
  · subst he
    simp [socket_map.insert, h, socket_map.find]
  · have hk : ¬ k = e := fun hke => he hke.symm
    simp [socket_map.insert, h, socket_map.find, he, hk]

theorem socket_map_insert_present (m : socket_map) (k : endpoint_type) (v t : SocketId)
    (h : m.find k = some t) : m.insert (k, v) = m := by
  simp [socket_map.insert, h]

theorem registered_cycle (error : error_code) (E : endpoint_type) (net : Transport)
    (reentry : List Call) (w : System) (S : SocketId) (hfind : w.sockets.find E = some S) :
    ∃ evs,
      (multiplexer.process_peek error E net reentry w).trace = w.trace ++ evs ∧
      evs.filterMap Event.receiver = [S] ∧
      (∀ s ∈ evs.filterMap Event.socket, s = S) := by
  cases hp : (w.socks S).pending with
  | none =>
    have hdeq : (w.dequeue S).1 = none := by simp [System.dequeue, hp]
    obtain ⟨_, _, _, _, e5⟩ := enqueue_cycle error E net reentry w S hfind hdeq
    refine ⟨_, e5, ?_, ?_⟩
    · by_cases hc : 0 < wrap (w.receive_calls - 1) <;> simp [Event.receiver, hc]
    · by_cases hc : 0 < wrap (w.receive_calls - 1) <;> simp [Event.socket, hc]
  | some r =>
    have hdeq : (w.dequeue S).1 = some r := by simp [System.dequeue, hp]
    obtain ⟨_, _, n, r3⟩ := receive_cycle error E net reentry w S r hfind hdeq
    refine ⟨_, r3, ?_, ?_⟩
    · simp [Event.receiver, filterMap_replicate_arm]
    · simp [Event.socket, filterMap_replicate_arm]

theorem filter_is_peek_replicate (n : Nat) :
    (List.replicate n Event.async_receive_from).filter Event.is_peek
      = List.replicate n Event.async_receive_from := by
  induction n with
  | zero => rfl
  | succ n ih => simp [List.replicate_succ, Event.is_peek]

theorem process_peek_shape_trace (error : error_code) (E : endpoint_type) (net : Transport)
    (reentry : List Call) (w : System) :
    ∃ wX : System,
      multiplexer.process_peek error E net reentry w
        = multiplexer.rearm (run_calls (invoked E reentry w) wX) ∧
      wX.receive_calls = w.receive_calls ∧ wX.peeks = w.peeks ∧
      ∃ evs0 : List Event, wX.trace = w.trace ++ evs0 ∧ evs0.filter Event.is_peek = [] := by
  cases hfind : w.sockets.find E with
  | none =>
    cases hq : w.acceptor_queue with
    | nil =>
      rw [peek_drop_eq error E net reentry w hfind hq]
      simp only [invoked, hfind, hq, if_true]
      refine ⟨_, rfl, rfl, rfl, ?_⟩
      simp [System.emit, Event.is_peek]
    | cons a rest =>
      obtain ⟨A, h⟩ := a
      rw [peek_accept_eq error E net reentry w A h rest hfind hq]
      have hinv : invoked E reentry w = reentry := by simp [invoked, hfind, hq]
      rw [hinv]
      by_cases herr : (net.receive_from net.bytes_readable E).error = 0
      · simp only [multiplexer.process_accept, herr, if_true]
        refine ⟨_, rfl, rfl, rfl, ?_⟩
        simp [System.emit, System.enqueue, System.set_remote_endpoint, Event.is_peek]
      · simp only [multiplexer.process_accept, herr, if_false]
        refine ⟨_, rfl, rfl, rfl, ?_⟩
        simp [System.emit, Event.is_peek]
  | some S =>
    cases hp : (w.socks S).pending with
    | none =>
      rw [peek_enqueue_eq error E net reentry w S hfind (by simp [System.dequeue, hp])]
      simp only [invoked, hfind, hp, Option.isSome_none, Bool.false_eq_true, if_false]
      refine ⟨_, rfl, rfl, rfl, ?_⟩
      simp [Event.is_peek]
    | some r =>
      rw [peek_receive_eq error E net reentry w S r hfind (by simp [System.dequeue, hp])]
      simp only [invoked, hfind, hp, Option.isSome_some, if_true]
      refine ⟨_, rfl, rfl, rfl, ?_⟩
      simp [Event.is_peek]

theorem process_peek_arms (error : error_code) (E : endpoint_type) (net : Transport)
    (reentry : List Call) (w : System) :
    ∃ (evs0 : List Event) (n : Nat),
      (multiplexer.process_peek error E net reentry w).trace
        = w.trace ++ (evs0 ++ List.replicate n Event.async_receive_from) ∧
      evs0.filter Event.is_peek = [] ∧
      (multiplexer.process_peek error E net reentry w).peeks = w.peeks + n ∧
      (0 < w.receive_calls → w.receive_calls + bumps (invoked E reentry w) ≤ INT_MAX →
        n = if 1 < w.receive_calls + bumps (invoked E reentry w) then 1 else 0) ∧
      (invoked E reentry w = [] → n = if 0 < wrap (w.receive_calls - 1) then 1 else 0) := by
  obtain ⟨wX, h1, h2, h3, evs0, h4, h5⟩ := process_peek_shape_trace error E net reentry w
  rw [h1]
  rcases Classical.em (invoked E reentry w = []) with hnil | hne
  · rw [hnil, run_calls_nil]
    obtain ⟨_, _, _, _, r5, r6⟩ := rearm_effect wX
    refine ⟨evs0, if 0 < wrap (w.receive_calls - 1) then 1 else 0, ?_, h5, ?_, ?_, fun _ => rfl⟩
    · rw [r5, h4, h2, List.append_assoc]
      by_cases hc : 0 < wrap (w.receive_calls - 1) <;> simp [hc]
    · rw [r6, h3, h2]
    · intro hpos hmax
      simp only [bumps, Nat.cast_zero, add_zero] at hmax ⊢
      rw [wrap_of_range _ (by unfold INT_MIN; omega) (by omega)]
      by_cases hc : 1 < w.receive_calls
      · rw [if_pos hc, if_pos (by omega)]
      · rw [if_neg hc, if_neg (by omega)]
  · obtain ⟨_, _, _, n, r4, r5, r6⟩ := rearm_run_calls (invoked E reentry w) wX
    refine ⟨evs0, n, ?_, h5, ?_, ?_, fun hnil => absurd hnil hne⟩
    · rw [r4, h4, List.append_assoc]
    · rw [r5, h3]
    · intro hpos hmax
      rw [r6 (by rw [h2]; exact hpos) (by rw [h2]; exact hmax), h2]

theorem invoked_nil (E : endpoint_type) (w : System) : invoked E [] w = [] := by
  rcases invoked_cases E [] w with h | h <;> exact h

theorem bumps_eq_length (cs : List Call) (h : cs.all Call.is_request = true) :
    bumps cs = cs.length := by
  induction cs with
  | nil => rfl
  | cons c cs ih =>
    simp only [List.all_cons, Bool.and_eq_true] at h
    cases c with
    | add s => simp [Call.is_request] at h
    | remove s => simp [Call.is_request] at h
    | async_accept s hd => simp [bumps, ih h.2]
    | start_receive => simp [bumps, ih h.2]

theorem step_counter_wrap (op : Op) (w w1 : System) (hs : step op w = some w1) :
    wrap w1.receive_calls = wrap (w.receive_calls + op.requests w - op.cycles) := by
  cases op with
  | call c =>
    simp only [step, Option.some.injEq] at hs
    subst hs
    rw [(call_run_effect c w).2.2.1]
    simp [Op.requests, Op.cycles]
  | peek error E net reentry =>
    by_cases hk : 0 < w.peeks
    · simp only [step, hk, if_true, Option.some.injEq] at hs
      subst hs
      have c1 := (process_peek_counts error E net reentry { w with peeks := w.peeks - 1 }).1
      have hinv : invoked E reentry { w with peeks := w.peeks - 1 } = invoked E reentry w := rfl
      rw [hinv] at c1
      rw [c1, wrap_wrap]
      simp [Op.requests, Op.cycles]
    · simp [step, hk] at hs

theorem step_counter_exact (op : Op) (w w1 : System) (h : loop_invariant w)
    (hmax : w.receive_calls + op.requests w ≤ INT_MAX) (hs : step op w = some w1) :
    w1.receive_calls = w.receive_calls + op.requests w - op.cycles := by
  cases op with
  | call c =>
    simp only [step, Option.some.injEq] at hs
    subst hs
    obtain ⟨_, _, _, n, _, _, c6⟩ := call_run_effect c w
    rw [(c6 h.1 hmax).1]
    simp [Op.requests, Op.cycles]
  | peek error E net reentry =>
    by_cases hk : 0 < w.peeks
    · simp only [step, hk, if_true, Option.some.injEq] at hs
      subst hs
      have hpos : 0 < w.receive_calls := by
        by_contra hcon
        have hp := h.2
        rw [if_neg hcon] at hp
        omega
      have c3 := (process_peek_counts error E net reentry
        { w with peeks := w.peeks - 1 }).2.2 hpos hmax
      have hinv : invoked E reentry { w with peeks := w.peeks - 1 } = invoked E reentry w := rfl
      rw [hinv] at c3
      rw [c3.1]
      simp [Op.requests, Op.cycles]
    · simp [step, hk] at hs

theorem step_in_range (op : Op) (w w1 : System) (h : in_range w.receive_calls)
    (hs : step op w = some w1) : in_range w1.receive_calls := by
  have hw := step_counter_wrap op w w1 hs
  cases op with
  | call c =>
    simp only [step, Option.some.injEq] at hs
    subst hs
    cases c with
    | add s => exact h
    | remove s => exact h
    | async_accept s hd =>
      by_cases h0 : w.receive_calls = 0 <;>
        simp [Call.run, multiplexer.async_accept, multiplexer.do_start_receive, h0, in_range,
          wrap_range]
    | start_receive =>
      by_cases h0 : w.receive_calls = 0 <;>
        simp [Call.run, multiplexer.start_receive, multiplexer.do_start_receive, h0, in_range,
          wrap_range]
  | peek error E net reentry =>
    by_cases hk : 0 < w.peeks
    · simp only [step, hk, if_true, Option.some.injEq] at hs
      subst hs
      rw [(process_peek_counts error E net reentry { w with peeks := w.peeks - 1 }).1]
      exact wrap_range _
    · simp [step, hk] at hs

theorem run_in_range (ops : List Op) :
    ∀ w w1 : System, in_range w.receive_calls → run ops w = some w1 →
      in_range w1.receive_calls := by
  induction ops with
  | nil =>
    intro w w1 h hr
    simp only [run, Option.some.injEq] at hr
    subst hr
    exact h
  | cons op ops ih =>
    intro w w1 h hr
    cases hs : step op w with
    | none => simp [run, hs] at hr
    | some w2 =>
      simp only [run, hs] at hr
      exact ih w2 w1 (step_in_range op w w2 h hs) hr

theorem run_counter_wrap (ops : List Op) :
    ∀ w w1 : System, run ops w = some w1 →
      wrap w1.receive_calls
        = wrap (w.receive_calls + requests_made ops w - cycles_completed ops) := by
  induction ops with
  | nil =>
    intro w w1 hr
    simp only [run, Option.some.injEq] at hr
    subst hr
    simp [requests_made, cycles_completed]
  | cons op ops ih =>
    intro w w1 hr
    cases hs : step op w with
    | none => simp [run, hs] at hr
    | some w2 =>
      simp only [run, hs] at hr
      have h1 := step_counter_wrap op w w2 hs
      have h2 := ih w2 w1 hr
      have hc : cycles_completed (op :: ops) = op.cycles + cycles_completed ops := by
        simp [cycles_completed]
      have e1 := wrap_add w2.receive_calls
        ((requests_made ops w2 : Int) - (cycles_completed ops : Int))
      have e2 := wrap_add (w.receive_calls + (op.requests w : Int) - (op.cycles : Int))
        ((requests_made ops w2 : Int) - (cycles_completed ops : Int))
      rw [h1, e2] at e1
      rw [h2, hc]
      simp only [requests_made, hs]
      have e3 : w2.receive_calls + ((requests_made ops w2 : Int) - (cycles_completed ops : Int))
          = w2.receive_calls + (requests_made ops w2 : Int) - (cycles_completed ops : Int) := by
        ring
      rw [e3] at e1
      rw [← e1]
      congr 1
      push_cast
      ring

theorem run_counter_exact (ops : List Op) :
    ∀ w w1 : System, loop_invariant w → no_overflow ops w = true → run ops w = some w1 →
      w1.receive_calls = w.receive_calls + requests_made ops w - cycles_completed ops := by
  induction ops with
  | nil =>
    intro w w1 _ _ hr
    simp only [run, Option.some.injEq] at hr
    subst hr
    simp [requests_made, cycles_completed]
  | cons op ops ih =>
    intro w w1 h hno hr
    cases hs : step op w with
    | none => simp [run, hs] at hr
    | some w2 =>
      simp only [run, hs] at hr
      obtain ⟨hmax, hno2⟩ := no_overflow_cons op ops w w2 hno hs
      have h1 := step_counter_exact op w w2 h hmax hs
      have h2 := ih w2 w1 (loop_invariant_step op w w2 h hmax hs) hno2 hr
      have hc : cycles_completed (op :: ops) = op.cycles + cycles_completed ops := by
        simp [cycles_completed]
      rw [h2, h1, hc]
      simp only [requests_made, hs]
      push_cast
      ring

theorem requests_made_plain (ops : List Op) :
    ∀ w w1 : System, (∀ op ∈ ops, op.is_plain = true) → run ops w = some w1 →
      requests_made ops w = request_steps ops := by
  induction ops with
  | nil => intro w w1 _ _; rfl
  | cons op ops ih =>
    intro w w1 hplain hr
    cases hs : step op w with
    | none => simp [run, hs] at hr
    | some w2 =>
      simp only [run, hs] at hr
      have h2 := ih w2 w1 (fun o ho => hplain o (List.mem_cons_of_mem _ ho)) hr
      have hop := hplain op (List.mem_cons_self _ _)
      simp only [requests_made, hs, h2]
      cases op with
      | call c => simp [request_steps, Op.requests]
      | peek error E net reentry =>
        have hnil : reentry = [] := by
          simpa [Op.is_plain, List.isEmpty_iff] using hop
        subst hnil
        simp [request_steps, Op.requests, invoked_nil, bumps]

theorem run_append (a b : List Op) :
    ∀ w : System, run (a ++ b) w = (run a w).bind (run b) := by
  induction a with
  | nil => intro w; rfl
  | cons op a ih =>
    intro w
    cases hs : step op w with
    | none => simp [run, hs]
    | some w1 => simp [run, hs, ih w1]

theorem run_start_receives (k : Nat) :
    ∀ w : System, 0 < w.receive_calls → w.receive_calls + k ≤ INT_MAX →
      run (List.replicate k (Op.call Call.start_receive)) w
        = some { w with receive_calls := w.receive_calls + k } := by
  induction k with
  | zero => intro w _ _; simp [run]
  | succ k ih =>
    intro w hpos hmax
    have h0 : w.receive_calls ≠ 0 := by omega
    have hw : wrap (w.receive_calls + 1) = w.receive_calls + 1 :=
      wrap_of_range _ (by unfold INT_MIN; omega) (by push_cast at hmax; omega)
    have hstep : step (Op.call Call.start_receive) w
        = some { w with receive_calls := w.receive_calls + 1 } := by
      simp [step, Call.run, multiplexer.start_receive, h0, hw]
    rw [List.replicate_succ]
    simp only [run, hstep]
    rw [ih _ (by show 0 < w.receive_calls + 1; omega)
      (by show w.receive_calls + 1 + (k : Int) ≤ INT_MAX; push_cast at hmax; omega)]
    simp only [Option.some.injEq]
    show ({ w with receive_calls := w.receive_calls + 1 + (k : Int) } : System)
      = { w with receive_calls := w.receive_calls + ((k + 1 : Nat) : Int) }
    have : w.receive_calls + 1 + (k : Int) = w.receive_calls + ((k + 1 : Nat) : Int) := by
      push_cast; ring
    rw [this]

theorem requests_made_start_receives (k : Nat) :
    ∀ w : System, requests_made (List.replicate k (Op.call Call.start_receive)) w = k := by
  induction k with
  | zero => intro w; rfl
  | succ k ih =>
    intro w
    rw [List.replicate_succ]
    simp only [requests_made, step, ih, Op.requests, bumps]
    omega

theorem cycles_completed_calls (k : Nat) (c : Call) :
    cycles_completed (List.replicate k (Op.call c)) = 0 := by
  induction k with
  | zero => rfl
  | succ k ih =>
    rw [List.replicate_succ]
    simp only [cycles_completed, List.map_cons, List.sum_cons, Op.cycles, Nat.zero_add] at ih ⊢
    exact ih

theorem run_start_receives_overflow (socks : SocketId → socket_base) (n : Nat)
    (hn : (n : Int) + 2 = 2147483648) :
    run (List.replicate (n + 1 + 1) (Op.call Call.start_receive)) (multiplexer.create socks)
      = some { sockets := [], receive_calls := -2147483648, acceptor_queue := [], peeks := 1,
               socks := socks, trace := [Event.async_receive_from] } := by
  rw [List.replicate_succ', run_append, List.replicate_succ]
  have hstep : step (Op.call Call.start_receive) (multiplexer.create socks)
      = some { sockets := [], receive_calls := 1, acceptor_queue := [], peeks := 1,
               socks := socks, trace := [Event.async_receive_from] } := by
    simp [step, Call.run, multiplexer.start_receive, multiplexer.create,
      multiplexer.do_start_receive, wrap]
  simp only [run, hstep]
  rw [run_start_receives n _ (by show (0 : Int) < 1; omega)
    (by show (1 : Int) + (n : Int) ≤ INT_MAX; unfold INT_MAX; omega)]
  have hval : (1 : Int) + (n : Int) = 2147483647 := by omega
  simp only [Option.bind, run, step, Call.run, multiplexer.start_receive, hval]
  simp [wrap]

/-! ## Lemmas on buffers -/

theorem foldl_emplace_back (xs acc : List mutable_buffer) :
    xs.foldl (fun acc x => acc ++ [x]) acc = acc ++ xs := by
  induction xs generalizing acc with
  | nil => simp
  | cons x xs ih => simp [ih]

theorem collect_payload (h : Option mutable_buffer) (post : List mutable_buffer) :
    ∀ (rest pre : List mutable_buffer),
      const_iterator.collect rest.length
          { i := pre.length + 1, header := h, payload := some (pre ++ (rest ++ post)) }
        = some (rest, { i := pre.length + 1 + rest.length, header := h,
                        payload := some (pre ++ (rest ++ post)) }) := by
  intro rest
  induction rest with
  | nil => intro pre; simp [const_iterator.collect]
  | cons r rest ih =>
    intro pre
    have ih1 := ih (pre ++ [r])
    simp only [List.append_assoc, List.singleton_append, List.length_append,
      List.length_singleton] at ih1
    simp only [List.length_cons, const_iterator.collect, const_iterator.postinc,
      Nat.add_one_ne_zero, if_false, Nat.add_sub_cancel, List.cons_append]
    rw [List.getElem?_append_right (le_refl _)]
    simp only [Nat.sub_self, List.getElem?_cons_zero, ih1]
    have : pre.length + 1 + 1 + rest.length = pre.length + 1 + (rest.length + 1) := by omega
    rw [this]

/-! ## Theorems -/

/-! ### C1 -/

/-- Claim C1, as amended: in a peek cycle whose source endpoint `E` is registered to
socket `S`, `S` is the only socket that receives anything (one `process_receive` or one
`enqueue`), every socket operation of the cycle is on `S`, no other socket changes, and the
accept queue keeps all its entries (it only grows by what the consumer submits
re-entrantly). When `E` is not registered the datagram goes to the accept path: the one
socket that can receive anything is the target of the oldest accept request (nothing is
received when the queue is empty or the read fails), that request leaves the queue and its
handler is called; so a registered socket receives something only when it is itself that
target. -/
theorem routing_by_source_endpoint (error : error_code) (E : endpoint_type) (net : Transport)
    (reentry : List Call) (w : System) :
    ∃ evs,
      (multiplexer.process_peek error E net reentry w).trace = w.trace ++ evs ∧
      (∀ S, w.sockets.find E = some S →
        evs.filterMap Event.receiver = [S] ∧
        (∀ s ∈ evs.filterMap Event.socket, s = S) ∧
        (∀ s, s ≠ S → (multiplexer.process_peek error E net reentry w).socks s = w.socks s) ∧
        (multiplexer.process_peek error E net reentry w).acceptor_queue
          = w.acceptor_queue ++ accepts (invoked E reentry w)) ∧
      (w.sockets.find E = none →
        evs.filterMap Event.receiver
          = (match w.acceptor_queue with
             | [] => []
             | (A, _) :: _ => if net.read_error = 0 then [A] else []) ∧
        evs.filter Event.is_completion
          = (match w.acceptor_queue with
             | [] => []
             | (_, h) :: _ => [Event.handler h net.read_error]) ∧
        (∀ s ∈ evs.filterMap Event.socket, ∃ h, w.acceptor_queue.head? = some (s, h)) ∧
        (∀ s, (∀ h, w.acceptor_queue.head? ≠ some (s, h)) →
          (multiplexer.process_peek error E net reentry w).socks s = w.socks s) ∧
        (multiplexer.process_peek error E net reentry w).acceptor_queue
          = w.acceptor_queue.tail ++ accepts (invoked E reentry w)) := by
  cases hfind : w.sockets.find E with
  | none =>
    cases hq : w.acceptor_queue with
    | nil =>
      obtain ⟨d1, d2, n, d3⟩ := drop_cycle error E net reentry w hfind hq
      refine ⟨_, d3, fun S hS => Option.noConfusion hS, fun _ => ⟨?_, ?_, ?_, ?_, ?_⟩⟩
      · simp [Event.receiver, filterMap_replicate_arm]
      · simp [Event.is_completion, filter_replicate_arm]
      · simp [Event.socket, filterMap_replicate_arm]
      · intro s _; rw [d2]
      · rw [d1]; simp [invoked, hfind, hq, accepts]
    | cons a rest =>
      obtain ⟨A, h⟩ := a
      have hinv : invoked E reentry w = reentry := by simp [invoked, hfind, hq]
      by_cases hok : net.read_error = 0
      · obtain ⟨a1, a2, n, a3⟩ := accept_cycle_ok error E net reentry w A h rest hfind hq hok
        refine ⟨_, a3, fun S hS => Option.noConfusion hS, fun _ => ⟨?_, ?_, ?_, ?_, ?_⟩⟩
        · simp [Event.receiver, filterMap_replicate_arm, hok]
        · simp [Event.is_completion, filter_replicate_arm, hok]
        · simp [Event.socket, filterMap_replicate_arm]
        · intro s hs
          have hne : s ≠ A := fun hsa => hs h (by simp [hsa])
          rw [a2, Function.update_noteq hne]
        · rw [a1, hinv]; rfl
      · obtain ⟨a1, a2, n, a3⟩ := accept_cycle_err error E net reentry w A h rest hfind hq hok
        refine ⟨_, a3, fun S hS => Option.noConfusion hS, fun _ => ⟨?_, ?_, ?_, ?_, ?_⟩⟩
        · simp [Event.receiver, filterMap_replicate_arm, hok]
        · simp [Event.is_completion, filter_replicate_arm]
        · simp [Event.socket, filterMap_replicate_arm]
        · intro s _; rw [a2]
        · rw [a1, hinv]; rfl
  | some S =>
    cases hp : (w.socks S).pending with
    | none =>
      have hdeq : (w.dequeue S).1 = none := by simp [System.dequeue, hp]
      obtain ⟨_, e2, _, e4, e5⟩ := enqueue_cycle error E net reentry w S hfind hdeq
      refine ⟨_, e5, fun S1 hS1 => ?_, fun hn => Option.noConfusion hn⟩
      obtain rfl : S = S1 := by injection hS1
      refine ⟨?_, ?_, ?_, ?_⟩
      · by_cases hc : 0 < wrap (w.receive_calls - 1) <;> simp [Event.receiver, hc]
      · by_cases hc : 0 < wrap (w.receive_calls - 1) <;> simp [Event.socket, hc]
      · intro s hs; rw [e4, Function.update_noteq hs]
      · rw [e2]; simp [invoked, hfind, hp, accepts]
    | some r =>
      have hdeq : (w.dequeue S).1 = some r := by simp [System.dequeue, hp]
      obtain ⟨r1, r2, n, r3⟩ := receive_cycle error E net reentry w S r hfind hdeq
      refine ⟨_, r3, fun S1 hS1 => ?_, fun hn => Option.noConfusion hn⟩
      obtain rfl : S = S1 := by injection hS1
      refine ⟨?_, ?_, ?_, ?_⟩
      · simp [Event.receiver, filterMap_replicate_arm]
      · simp [Event.socket, filterMap_replicate_arm]
      · intro s hs; rw [r2, Function.update_noteq hs]
      · rw [r1]; simp [invoked, hfind, hp]

/-- Witness of claim C1: socket 7 is registered under endpoint 1 and socket 8 under
endpoint 2; a datagram from endpoint 2 is delivered to socket 8 alone and the queued accept
request stays in place. -/
theorem routing_by_source_endpoint_witness :
    ∃ evs,
      (multiplexer.process_peek 0 2 ⟨⟨2, [4]⟩, 0⟩ []
        ⟨[(1, 7), (2, 8)], 1, [(3, 9)], 0, fun _ => ⟨0, none, []⟩, []⟩).trace = [] ++ evs ∧
      evs.filterMap Event.receiver = [8] ∧
      (multiplexer.process_peek 0 2 ⟨⟨2, [4]⟩, 0⟩ []
        ⟨[(1, 7), (2, 8)], 1, [(3, 9)], 0, fun _ => ⟨0, none, []⟩, []⟩).acceptor_queue
        = [(3, 9)] := by
  obtain ⟨evs, h1, h2, _⟩ := routing_by_source_endpoint 0 2 ⟨⟨2, [4]⟩, 0⟩ []
    ⟨[(1, 7), (2, 8)], 1, [(3, 9)], 0, fun _ => ⟨0, none, []⟩, []⟩
  obtain ⟨h3, _, _, h4⟩ := h2 8 rfl
  exact ⟨evs, h1, h3, h4⟩

/-- Counterexample to claim C1 as stated: socket 7 is registered under endpoint 1 and is
also the target of the queued accept request; a datagram from the unregistered endpoint 2
is bound to and enqueued on socket 7, so a registered socket does receive it. -/
theorem registered_socket_receives_unregistered_datagram :
    socket_map.find [(1, 7)] 2 = none ∧
    socket_map.find [(1, 7)] 1 = some 7 ∧
    (multiplexer.process_peek 0 2 ⟨⟨2, [4]⟩, 0⟩ []
        ⟨[(1, 7)], 1, [(7, 9)], 0, fun _ => ⟨1, none, []⟩, []⟩).trace
      = [Event.make_shared 1, Event.receive_from (Target.datagram 1) 0 1,
         Event.remote_endpoint 7 2, Event.enqueue 7 0 1 [4], Event.handler 9 0] ∧
    ((multiplexer.process_peek 0 2 ⟨⟨2, [4]⟩, 0⟩ []
        ⟨[(1, 7)], 1, [(7, 9)], 0, fun _ => ⟨1, none, []⟩, []⟩).socks 7).backlog
      = [(0, 1, [4])] := by
  refine ⟨rfl, rfl, rfl, ?_⟩
  simp [multiplexer.process_peek, socket_map.find, System.emit, multiplexer.process_accept,
    Transport.receive_from, System.enqueue, System.set_remote_endpoint, multiplexer.rearm,
    run_calls, make_buffer, buffer_write, Transport.bytes_readable, wrap]

/-! ### C2 -/

/-- Claim C2, as amended: in every state reached from a freshly created multiplexer by any
sequence of steps (calls of `add`, `remove`, `async_accept`, `start_receive`, and
completions of an outstanding peek, whose consumers may call back into the multiplexer)
during which the interest counter never overflows (no step takes it beyond `INT_MAX`), at
most one peek is outstanding, and one is outstanding exactly when the interest counter is
positive. -/
theorem single_flight (socks : SocketId → socket_base) (ops : List Op) (w : System)
    (hno : no_overflow ops (multiplexer.create socks) = true)
    (h : run ops (multiplexer.create socks) = some w) :
    (w.peeks = 0 ∨ w.peeks = 1) ∧ (w.peeks = 1 ↔ 0 < w.receive_calls) := by
  obtain ⟨_, hp⟩ := loop_invariant_run ops _ w (loop_invariant_create socks) hno h
  by_cases hpos : 0 < w.receive_calls
  · rw [if_pos hpos] at hp
    exact ⟨Or.inr hp, fun _ => hpos, fun _ => hp⟩
  · rw [if_neg hpos] at hp
    exact ⟨Or.inl hp, fun h1 => by omega, fun h1 => absurd h1 hpos⟩

/-- Witness of claim C2: an accept request and a receive request, then one datagram from
the unregistered endpoint 9; one party is still interested and one peek is outstanding. -/
theorem single_flight_witness :
    ∃ w, run [Op.call (Call.async_accept 1 7), Op.call Call.start_receive,
              Op.peek 0 9 ⟨⟨9, [4, 2]⟩, 0⟩ []]
            (multiplexer.create (fun _ => ⟨0, none, []⟩)) = some w ∧
      w.receive_calls = 1 ∧
      (w.peeks = 0 ∨ w.peeks = 1) ∧ (w.peeks = 1 ↔ 0 < w.receive_calls) :=
  ⟨_, rfl, rfl, single_flight (fun _ => ⟨0, none, []⟩)
    [Op.call (Call.async_accept 1 7), Op.call Call.start_receive,
      Op.peek 0 9 ⟨⟨9, [4, 2]⟩, 0⟩ []] _ (by decide) rfl⟩

/-- Counterexample to claim C2 as stated: `2^31` calls of `start_receive` on a freshly
created multiplexer. The first call arms the peek; the last one takes the counter from
`INT_MAX` to `INT_MIN`. One peek is outstanding while the counter is not positive. -/
theorem single_flight_lost_on_overflow :
    ∃ w, run (List.replicate 2147483648 (Op.call Call.start_receive))
            (multiplexer.create (fun _ => ⟨0, none, []⟩)) = some w ∧
      w.peeks = 1 ∧ w.receive_calls = -2147483648 :=
  ⟨_, run_start_receives_overflow (fun _ => ⟨0, none, []⟩) 2147483646 (by norm_num),
    rfl, rfl⟩

/-! ### C3 -/

/-- Claim C3: from a state with an empty accept queue in which `X` and `Y` are not
registered (in particular one with no registered socket), after `async_accept(A1, h1)` and
then `async_accept(A2, h2)`, two cycles with successful reads of datagrams from `X` and then
from `Y` bind `A1` to `X` and enqueue the first datagram on it, call `h1` with success, then
bind `A2` to `Y`, enqueue the second datagram on it and call `h2` with success, in this
order, and leave the accept queue empty. In general `async_accept` appends at the tail, and
a cycle on the accept path removes the head of the queue and calls the handler of that
entry. -/
theorem fifo_accept (w0 : System) (A1 A2 : SocketId) (h1 h2 : HandlerId)
    (X Y : endpoint_type) (e1 e2 : error_code) (dX dY : buffer_type)
    (hq : w0.acceptor_queue = [])
    (hX : w0.sockets.find X = none) (hY : w0.sockets.find Y = none) :
    (∃ w1 w2 w3 : System,
      w1 = multiplexer.async_accept A2 h2 (multiplexer.async_accept A1 h1 w0) ∧
      w2 = multiplexer.process_peek e1 X ⟨⟨X, dX⟩, 0⟩ [] w1 ∧
      w3 = multiplexer.process_peek e2 Y ⟨⟨Y, dY⟩, 0⟩ [] w2 ∧
      w1.acceptor_queue = [(A1, h1), (A2, h2)] ∧
      w2.acceptor_queue = [(A2, h2)] ∧
      w3.acceptor_queue = [] ∧
      (∃ a b, w3.trace = w1.trace
        ++ [Event.make_shared dX.length, Event.receive_from (Target.datagram dX.length) 0 dX.length,
            Event.remote_endpoint A1 X, Event.enqueue A1 0 dX.length dX, Event.handler h1 0]
        ++ List.replicate a Event.async_receive_from
        ++ [Event.make_shared dY.length, Event.receive_from (Target.datagram dY.length) 0 dY.length,
            Event.remote_endpoint A2 Y, Event.enqueue A2 0 dY.length dY, Event.handler h2 0]
        ++ List.replicate b Event.async_receive_from) ∧
      (w2.socks A1).remote = X ∧
      (w3.socks A2).remote = Y ∧
      (A1 ≠ A2 → (w3.socks A1).remote = X)) ∧
    (∀ (w : System) (s : SocketId) (h : HandlerId),
      (multiplexer.async_accept s h w).acceptor_queue = w.acceptor_queue ++ [(s, h)]) ∧
    (∀ (w : System) (error : error_code) (E : endpoint_type) (net : Transport)
        (reentry : List Call) (A : SocketId) (h : HandlerId)
        (rest : List (SocketId × HandlerId)),
      w.sockets.find E = none → w.acceptor_queue = (A, h) :: rest →
      (multiplexer.process_peek error E net reentry w).acceptor_queue
          = rest ++ accepts reentry ∧
      ∃ evs, (multiplexer.process_peek error E net reentry w).trace = w.trace ++ evs ∧
        evs.filter Event.is_completion = [Event.handler h net.read_error]) := by
  refine ⟨⟨_, _, _, rfl, rfl, rfl, ?_⟩, fun w s h => (async_accept_effect s h w).1, ?_⟩
  · obtain ⟨q1, s1, _⟩ := async_accept_effect A1 h1 w0
    obtain ⟨q2, s2, _⟩ := async_accept_effect A2 h2 (multiplexer.async_accept A1 h1 w0)
    have hq1 : (multiplexer.async_accept A2 h2 (multiplexer.async_accept A1 h1 w0)).acceptor_queue
        = (A1, h1) :: [(A2, h2)] := by rw [q2, q1, hq]; rfl
    have hX1 : (multiplexer.async_accept A2 h2 (multiplexer.async_accept A1 h1 w0)).sockets.find X
        = none := by rw [s2, s1]; exact hX
    obtain ⟨a1, a2, a, a3⟩ := accept_cycle_ok e1 X ⟨⟨X, dX⟩, 0⟩ []
      (multiplexer.async_accept A2 h2 (multiplexer.async_accept A1 h1 w0)) A1 h1 [(A2, h2)]
      hX1 hq1 rfl
    have hq2 : (multiplexer.process_peek e1 X ⟨⟨X, dX⟩, 0⟩ []
        (multiplexer.async_accept A2 h2 (multiplexer.async_accept A1 h1 w0))).acceptor_queue
        = (A2, h2) :: [] := by rw [a1]; rfl
    have hY2 : (multiplexer.process_peek e1 X ⟨⟨X, dX⟩, 0⟩ []
        (multiplexer.async_accept A2 h2 (multiplexer.async_accept A1 h1 w0))).sockets.find Y
        = none := by rw [process_peek_sockets_nil, s2, s1]; exact hY
    obtain ⟨b1, b2, b, b3⟩ := accept_cycle_ok e2 Y ⟨⟨Y, dY⟩, 0⟩ []
      (multiplexer.process_peek e1 X ⟨⟨X, dX⟩, 0⟩ []
        (multiplexer.async_accept A2 h2 (multiplexer.async_accept A1 h1 w0))) A2 h2 []
      hY2 hq2 rfl
    refine ⟨hq1, hq2, by rw [b1]; rfl, ⟨a, b, ?_⟩, ?_, ?_, ?_⟩
    · rw [b3, a3]; simp
    · rw [a2]; simp
    · rw [b2]; simp
    · intro hne
      rw [b2, Function.update_noteq hne, a2]; simp
  · intro w error E net reentry A h rest hfind hqw
    by_cases hok : net.read_error = 0
    · obtain ⟨a1, _, n, a3⟩ := accept_cycle_ok error E net reentry w A h rest hfind hqw hok
      exact ⟨a1, _, a3, by simp [Event.is_completion, filter_replicate_arm, hok]⟩
    · obtain ⟨a1, _, n, a3⟩ := accept_cycle_err error E net reentry w A h rest hfind hqw hok
      exact ⟨a1, _, a3, by simp [Event.is_completion, filter_replicate_arm]⟩

/-- Witness of claim C3: a fresh multiplexer, accept requests for sockets 1 and 2 with
handlers 11 and 12, then datagrams from endpoints 7 and 8. -/
theorem fifo_accept_witness :
    ∃ w3 : System,
      w3 = multiplexer.process_peek 0 8 ⟨⟨8, [4]⟩, 0⟩ []
            (multiplexer.process_peek 0 7 ⟨⟨7, [3, 3]⟩, 0⟩ []
              (multiplexer.async_accept 2 12
                (multiplexer.async_accept 1 11 (multiplexer.create (fun _ => ⟨0, none, []⟩))))) ∧
      w3.acceptor_queue = [] ∧ (w3.socks 2).remote = 8 ∧ (w3.socks 1).remote = 7 := by
  obtain ⟨⟨w1, w2, w3, r1, r2, r3, _, _, r6, _, _, r9, r10⟩, _⟩ :=
    fifo_accept (multiplexer.create (fun _ => ⟨0, none, []⟩)) 1 2 11 12 7 8 0 0 [3, 3] [4]
      rfl rfl rfl
  subst r1
  subst r2
  exact ⟨w3, r3, r6, r9, r10 (by decide)⟩

/-! ### C4 -/

/-- Claim C4: a `buffers` value built from header `H` and payload `P` stores `P` unchanged
(same order, same length); its iterator dereferences to `H` at position 0 and to the
`k`-th payload segment at every position `1 ≤ k ≤ N`; `k` postfix increments from the
start reach position `k`; and reading `N + 1` elements with postfix increment from a
fresh iterator yields exactly `H :: P`. -/
theorem buffers_iteration_order (H : mutable_buffer) (P : List mutable_buffer) :
    (buffers.make H P).header = H ∧
    (buffers.make H P).payload = P ∧
    (buffers.make H P).payload.length = P.length ∧
    (buffers.make H P).first.i = 0 ∧
    (buffers.make H P).first.deref = some H ∧
    (∀ k, 1 ≤ k → k ≤ P.length →
      ((buffers.make H P).at_position k).deref = P[k - 1]? ∧
      P[k - 1]?.isSome = true ∧
      ((buffers.make H P).first.collect k).map (fun r => r.2)
        = some ((buffers.make H P).at_position k)) ∧
    ((buffers.make H P).first.collect (P.length + 1)).map (fun r => r.1)
      = some (H :: P) := by
  have hP : (buffers.make H P).payload = P := by
    simp [buffers.make, foldl_emplace_back]
  have hfirst : (buffers.make H P).first = { i := 0, header := some H, payload := some P } := by
    simp [buffers.first, const_iterator.make, buffers.make, foldl_emplace_back]
  refine ⟨rfl, hP, by rw [hP], by rw [hfirst], by rw [hfirst]; rfl, ?_, ?_⟩
  · intro k hk1 hkN
    refine ⟨?_, ?_, ?_⟩
    · have hk0 : k ≠ 0 := by omega
      simp [buffers.at_position, hfirst, const_iterator.deref, hk0]
    · rw [List.getElem?_eq_getElem (by omega)]; rfl
    · obtain ⟨j, rfl⟩ : ∃ j, k = j + 1 := ⟨k - 1, by omega⟩
      have hc := collect_payload (some H) (P.drop j) (P.take j) []
      have hlen : (P.take j).length = j := by simp; omega
      simp only [hlen, List.nil_append, List.take_append_drop, List.length_nil,
        Nat.zero_add] at hc
      simp [buffers.at_position, hfirst, const_iterator.collect, const_iterator.postinc, hc]
      omega
  · have hc := collect_payload (some H) [] P []
    simp only [List.nil_append, List.append_nil, List.length_nil, Nat.zero_add] at hc
    simp [hfirst, const_iterator.collect, const_iterator.postinc, hc]

/-- Witness of claim C4: header `(10, 4)` and payload `[(20, 8), (30, 16)]`; position 2
holds the second payload segment and three postfix reads give the three segments in order. -/
theorem buffers_iteration_order_witness :
    ((buffers.make ⟨10, 4⟩ [⟨20, 8⟩, ⟨30, 16⟩]).at_position 2).deref
      = [(⟨20, 8⟩ : mutable_buffer), ⟨30, 16⟩][2 - 1]? ∧
    ((buffers.make ⟨10, 4⟩ [⟨20, 8⟩, ⟨30, 16⟩]).first.collect
        (([⟨20, 8⟩, ⟨30, 16⟩] : List mutable_buffer).length + 1)).map (fun r => r.1)
      = some [⟨10, 4⟩, ⟨20, 8⟩, ⟨30, 16⟩] :=
  ⟨((buffers_iteration_order ⟨10, 4⟩ [⟨20, 8⟩, ⟨30, 16⟩]).2.2.2.2.2.1 2 (by decide)
      (by decide)).1,
    (buffers_iteration_order ⟨10, 4⟩ [⟨20, 8⟩, ⟨30, 16⟩]).2.2.2.2.2.2⟩

/-! ### C5 -/

/-- Claim C5, as amended: the consumer a cycle resolves is given the error code reported by
the consuming read of that cycle, whatever error code the peek completed with: the accept
handler is called once with the error of the read, and `process_receive` is called once
with the error of the read. The error code of the peek reaches the consumer only when the
read reports the same code. -/
theorem consumer_gets_read_error (error : error_code) (E : endpoint_type) (net : Transport)
    (reentry : List Call) (w : System) :
    ∃ evs,
      (multiplexer.process_peek error E net reentry w).trace = w.trace ++ evs ∧
      (∀ A h rest, w.sockets.find E = none → w.acceptor_queue = (A, h) :: rest →
        evs.filter Event.is_completion = [Event.handler h net.read_error] ∧
        (Event.handler h error ∈ evs ↔ net.read_error = error)) ∧
      (∀ S r, w.sockets.find E = some S → (w.dequeue S).1 = some r →
        evs.filter Event.is_completion
          = [Event.process_receive S net.read_error r.header_data
              (net.receive_from r.buffers.buffer_size E).bytes r.handler] ∧
        (Event.process_receive S error r.header_data
            (net.receive_from r.buffers.buffer_size E).bytes r.handler ∈ evs
          ↔ net.read_error = error)) := by
  cases hfind : w.sockets.find E with
  | none =>
    cases hq : w.acceptor_queue with
    | nil =>
      obtain ⟨_, _, n, d3⟩ := drop_cycle error E net reentry w hfind hq
      exact ⟨_, d3, fun A h rest _ hc => List.noConfusion hc,
        fun S r hS _ => Option.noConfusion hS⟩
    | cons a rest =>
      obtain ⟨A, h⟩ := a
      by_cases hok : net.read_error = 0
      · obtain ⟨_, _, n, a3⟩ := accept_cycle_ok error E net reentry w A h rest hfind hq hok
        refine ⟨_, a3, ?_, fun S r hS _ => Option.noConfusion hS⟩
        intro A1 h1 rest1 _ hc
        obtain ⟨rfl, rfl⟩ : h = h1 ∧ rest = rest1 := by
          injection hc with hc1 hc2
          injection hc1 with _ hc3
          exact ⟨hc3, hc2⟩
        refine ⟨by simp [Event.is_completion, filter_replicate_arm, hok], ?_⟩
        simp [List.mem_replicate, hok]
        exact eq_comm
      · obtain ⟨_, _, n, a3⟩ := accept_cycle_err error E net reentry w A h rest hfind hq hok
        refine ⟨_, a3, ?_, fun S r hS _ => Option.noConfusion hS⟩
        intro A1 h1 rest1 _ hc
        obtain ⟨rfl, rfl⟩ : h = h1 ∧ rest = rest1 := by
          injection hc with hc1 hc2
          injection hc1 with _ hc3
          exact ⟨hc3, hc2⟩
        refine ⟨by simp [Event.is_completion, filter_replicate_arm], ?_⟩
        simp [List.mem_replicate]
        exact eq_comm
  | some S =>
    cases hp : (w.socks S).pending with
    | none =>
      have hdeq : (w.dequeue S).1 = none := by simp [System.dequeue, hp]
      obtain ⟨_, _, _, _, e5⟩ := enqueue_cycle error E net reentry w S hfind hdeq
      refine ⟨_, e5, fun A h rest hn _ => Option.noConfusion hn, ?_⟩
      intro S1 r hS1 hr
      obtain rfl : S = S1 := by injection hS1
      rw [hdeq] at hr
      exact Option.noConfusion hr
    | some r =>
      have hdeq : (w.dequeue S).1 = some r := by simp [System.dequeue, hp]
      obtain ⟨_, _, n, r3⟩ := receive_cycle error E net reentry w S r hfind hdeq
      refine ⟨_, r3, fun A h rest hn _ => Option.noConfusion hn, ?_⟩
      intro S1 r1 hS1 hr
      obtain rfl : S = S1 := by injection hS1
      obtain rfl : r = r1 := by rw [hdeq] at hr; injection hr
      refine ⟨by simp [Event.is_completion, filter_replicate_arm], ?_⟩
      simp [List.mem_replicate]
      exact eq_comm

/-- Witness of claim C5: the peek completes with error 5, the read then fails with error
3, and the accept handler 7 is called with 3. -/
theorem consumer_gets_read_error_witness :
    ∃ evs,
      (multiplexer.process_peek 5 9 ⟨⟨9, [1]⟩, 3⟩ []
        ⟨[], 1, [(1, 7)], 0, fun _ => ⟨0, none, []⟩, []⟩).trace = [] ++ evs ∧
      evs.filter Event.is_completion = [Event.handler 7 3] := by
  obtain ⟨evs, h1, h2, _⟩ := consumer_gets_read_error 5 9 ⟨⟨9, [1]⟩, 3⟩ []
    ⟨[], 1, [(1, 7)], 0, fun _ => ⟨0, none, []⟩, []⟩
  exact ⟨evs, h1, (h2 1 7 [] rfl rfl).1⟩

/-- Counterexample to claim C5 as stated: the peek completes with error 5, the read that
follows succeeds, and the accept handler 7 is called with success, not with 5. -/
theorem peek_error_overwritten_by_read :
    (multiplexer.process_peek 5 9 ⟨⟨9, [1]⟩, 0⟩ []
        ⟨[], 1, [(1, 7)], 0, fun _ => ⟨0, none, []⟩, []⟩).trace
      = [Event.make_shared 1, Event.receive_from (Target.datagram 1) 0 1,
         Event.remote_endpoint 1 9, Event.enqueue 1 0 1 [1], Event.handler 7 0] ∧
    Event.handler 7 5 ∉
      (multiplexer.process_peek 5 9 ⟨⟨9, [1]⟩, 0⟩ []
        ⟨[], 1, [(1, 7)], 0, fun _ => ⟨0, none, []⟩, []⟩).trace := by
  have h : (multiplexer.process_peek 5 9 ⟨⟨9, [1]⟩, 0⟩ []
        ⟨[], 1, [(1, 7)], 0, fun _ => ⟨0, none, []⟩, []⟩).trace
      = [Event.make_shared 1, Event.receive_from (Target.datagram 1) 0 1,
         Event.remote_endpoint 1 9, Event.enqueue 1 0 1 [1], Event.handler 7 0] := rfl
  refine ⟨h, ?_⟩
  rw [h]
  decide

/-! ### C6 -/

/-- Claim C6, as amended: when the current remote endpoint of socket `s` is not a key of
the routing map, `remove(s)` changes nothing: the routing map, and with it every
registration, is as before, and so are the accept queue, the counter, the sockets and the
trace. In every state `remove(s)` erases exactly the key `s->remote_endpoint()`, whichever
socket is stored under it. -/
theorem remove_absent_endpoint_noop (s : SocketId) (w : System)
    (h : w.sockets.find (w.socks s).remote = none) :
    (multiplexer.remove s w).sockets = w.sockets ∧
    (∀ e, (multiplexer.remove s w).sockets.find e = w.sockets.find e) ∧
    (multiplexer.remove s w).acceptor_queue = w.acceptor_queue ∧
    (multiplexer.remove s w).receive_calls = w.receive_calls ∧
    (multiplexer.remove s w).peeks = w.peeks ∧
    (multiplexer.remove s w).socks = w.socks ∧
    (multiplexer.remove s w).trace = w.trace ∧
    (∀ (t : SocketId) (w1 : System) (e : endpoint_type),
      (multiplexer.remove t w1).sockets.find e
        = if e = (w1.socks t).remote then none else w1.sockets.find e) := by
  have h1 : (multiplexer.remove s w).sockets = w.sockets :=
    socket_map_erase_absent w.sockets _ h
  refine ⟨h1, fun e => by rw [h1], rfl, rfl, rfl, rfl, rfl, ?_⟩
  intro t w1 e
  exact socket_map_find_erase w1.sockets _ e

/-- Witness of claim C6: socket 1 is registered under endpoint 5; socket 2, whose remote
endpoint is 6, is removed, and socket 1 stays registered. -/
theorem remove_absent_endpoint_noop_witness :
    (multiplexer.remove 2
      ⟨[(5, 1)], 0, [], 0, fun s => ⟨if s = 2 then 6 else 5, none, []⟩, []⟩).sockets
      = [(5, 1)] :=
  (remove_absent_endpoint_noop 2
    ⟨[(5, 1)], 0, [], 0, fun s => ⟨if s = 2 then 6 else 5, none, []⟩, []⟩ rfl).1

/-- Counterexample to claim C6 as stated: socket 1 is registered under endpoint 5, socket 2
is registered nowhere but its remote endpoint is 5 as well; `remove(2)` erases the entry of
socket 1. -/
theorem remove_unregistered_socket_erases_other :
    (∀ e, socket_map.find [(5, 1)] e ≠ some 2) ∧
    socket_map.find [(5, 1)] 5 = some 1 ∧
    (multiplexer.remove 2 ⟨[(5, 1)], 0, [], 0, fun _ => ⟨5, none, []⟩, []⟩).sockets = [] ∧
    (multiplexer.remove 2 ⟨[(5, 1)], 0, [], 0, fun _ => ⟨5, none, []⟩, []⟩).sockets
      ≠ [(5, 1)] := by
  refine ⟨fun e => ?_, rfl, rfl, by decide⟩
  by_cases h : 5 = e <;> simp [socket_map.find, h]

/-! ### C7 -/

/-- Claim C8, as amended: with an empty accept queue and a source endpoint that is not in
the routing map, a peek cycle allocates one buffer of the pending length and performs
exactly one consuming read into it, performs no socket operation and calls no completion
handler, leaves the routing map, the accept queue and every socket unchanged, and
decrements the interest counter by one in `int` arithmetic, re-arming the peek when the
result is positive: the counter goes down by exactly one whenever it is above `INT_MIN`,
and from `INT_MIN` it wraps to `INT_MAX`. -/
theorem unclaimed_datagram_dropped (error : error_code) (E : endpoint_type) (net : Transport)
    (reentry : List Call) (w : System)
    (hq : w.acceptor_queue = []) (hfind : w.sockets.find E = none) :
    ∃ evs,
      (multiplexer.process_peek error E net reentry w).trace = w.trace ++ evs ∧
      evs = [Event.make_shared net.bytes_readable,
              Event.receive_from (Target.datagram net.bytes_readable) net.read_error
                (if net.read_error = 0 then net.bytes_readable else 0)]
            ++ (if 0 < wrap (w.receive_calls - 1) then [Event.async_receive_from] else []) ∧
      (evs.filter Event.is_read).length = 1 ∧
      evs.filterMap Event.socket = [] ∧
      evs.filter Event.is_completion = [] ∧
      (multiplexer.process_peek error E net reentry w).sockets = w.sockets ∧
      (multiplexer.process_peek error E net reentry w).acceptor_queue = w.acceptor_queue ∧
      (multiplexer.process_peek error E net reentry w).socks = w.socks ∧
      (multiplexer.process_peek error E net reentry w).receive_calls
        = wrap (w.receive_calls - 1) ∧
      (INT_MIN < w.receive_calls → w.receive_calls ≤ INT_MAX →
        (multiplexer.process_peek error E net reentry w).receive_calls
          = w.receive_calls - 1 ∧
        evs = [Event.make_shared net.bytes_readable,
                Event.receive_from (Target.datagram net.bytes_readable) net.read_error
                  (if net.read_error = 0 then net.bytes_readable else 0)]
              ++ (if 1 < w.receive_calls then [Event.async_receive_from] else [])) := by
  rw [peek_drop_eq error E net reentry w hfind hq]
  obtain ⟨r1, r2, r3, r4, r5, _⟩ := rearm_effect
    ((w.emit [Event.make_shared net.bytes_readable]).emit
      [Event.receive_from (Target.datagram net.bytes_readable)
        (net.receive_from net.bytes_readable E).error
        (net.receive_from net.bytes_readable E).bytes])
  refine ⟨_, ?_, rfl, ?_, ?_, ?_, ?_, ?_, ?_, ?_, ?_⟩
  · rw [r5]
    simp [System.emit, receive_from_error, receive_from_bytes, Transport.bytes_readable]
  · by_cases h : 0 < wrap (w.receive_calls - 1) <;> simp [h, Event.is_read]
  · by_cases h : 0 < wrap (w.receive_calls - 1) <;> simp [h, Event.socket]
  · by_cases h : 0 < wrap (w.receive_calls - 1) <;> simp [h, Event.is_completion]
  · rw [r1]; rfl
  · rw [r2]; rfl
  · rw [r3]; rfl
  · rw [r4]; rfl
  · intro hlo hhi
    have hw : wrap (w.receive_calls - 1) = w.receive_calls - 1 := by
      unfold INT_MIN at hlo
      unfold INT_MAX at hhi
      exact wrap_of_range _ (by unfold INT_MIN; omega) (by unfold INT_MAX; omega)
    refine ⟨by rw [r4]; exact hw, ?_⟩
    rw [hw]
    by_cases hc : 1 < w.receive_calls
    · rw [if_pos hc, if_pos (show 0 < w.receive_calls - 1 by omega)]
    · rw [if_neg hc, if_neg (show ¬ 0 < w.receive_calls - 1 by omega)]

/-- Witness of claim C8: a datagram of three bytes from endpoint 9 reaches a multiplexer
with no registration and no accept request, while two parties are interested. -/
theorem unclaimed_datagram_dropped_witness :
    ∃ evs,
      (multiplexer.process_peek 0 9 ⟨⟨9, [1, 2, 3]⟩, 0⟩ []
        ⟨[], 2, [], 0, fun _ => ⟨0, none, []⟩, []⟩).trace = [] ++ evs ∧
      evs = [Event.make_shared 3, Event.receive_from (Target.datagram 3) 0 3]
            ++ [Event.async_receive_from] ∧
      (multiplexer.process_peek 0 9 ⟨⟨9, [1, 2, 3]⟩, 0⟩ []
        ⟨[], 2, [], 0, fun _ => ⟨0, none, []⟩, []⟩).receive_calls = 2 - 1 := by
  obtain ⟨evs, h1, _, _, _, _, _, _, _, _, h10⟩ :=
    unclaimed_datagram_dropped 0 9 ⟨⟨9, [1, 2, 3]⟩, 0⟩ []
      ⟨[], 2, [], 0, fun _ => ⟨0, none, []⟩, []⟩ rfl rfl
  obtain ⟨h11, h12⟩ := h10 (by decide) (by decide)
  exact ⟨evs, h1, by rw [h12]; rfl, h11⟩

/-- Counterexample to claim C8 as stated: the state after `2^31` calls of `start_receive`
(counter `INT_MIN`, one party's peek completing) with no registration and no accept
request. The cycle takes the counter to `INT_MAX`, not to `INT_MIN - 1`, and re-arms the
peek. -/
theorem unclaimed_drop_wraps_at_int_min :
    (multiplexer.process_peek 0 9 ⟨⟨9, [1]⟩, 0⟩ []
        ⟨[], -2147483648, [], 0, fun _ => ⟨0, none, []⟩, []⟩).receive_calls = 2147483647 ∧
    (multiplexer.process_peek 0 9 ⟨⟨9, [1]⟩, 0⟩ []
        ⟨[], -2147483648, [], 0, fun _ => ⟨0, none, []⟩, []⟩).trace
      = [Event.make_shared 1, Event.receive_from (Target.datagram 1) 0 1,
         Event.async_receive_from] :=
  ⟨by decide, by decide⟩

/-! ### C9 -/

/-- Claim C9: when the source endpoint is registered to socket `S` and `S.dequeue()`
returns the pending request `r`, the cycle consists of that dequeue, one consuming read
straight into `r.buffers` (no datagram buffer is allocated, nothing is enqueued, no backlog
changes) and one call `S.process_receive(error of the read, r.header_data, bytes of the
read, r.handler)`; what follows in the trace are only peek re-arms. When the read succeeds
and `r.buffers` is at least as large as the datagram, the reported byte count is the
datagram length and the error code is success. -/
theorem direct_delivery (error : error_code) (E : endpoint_type) (net : Transport)
    (reentry : List Call) (w : System) (S : SocketId) (r : Input)
    (hfind : w.sockets.find E = some S) (hdeq : (w.dequeue S).1 = some r) :
    ∃ evs err bytes,
      (multiplexer.process_peek error E net reentry w).trace = w.trace ++ evs ∧
      err = (net.receive_from r.buffers.buffer_size E).error ∧
      bytes = (net.receive_from r.buffers.buffer_size E).bytes ∧
      (∃ n, evs = [Event.dequeue S,
                    Event.receive_from (Target.request S r.buffers) err bytes,
                    Event.process_receive S err r.header_data bytes r.handler]
                  ++ List.replicate n Event.async_receive_from) ∧
      evs.filter Event.is_read = [Event.receive_from (Target.request S r.buffers) err bytes] ∧
      evs.filterMap Event.receiver = [S] ∧
      evs.filter Event.is_completion
        = [Event.process_receive S err r.header_data bytes r.handler] ∧
      (∀ s, ((multiplexer.process_peek error E net reentry w).socks s).backlog
        = (w.socks s).backlog) ∧
      (net.read_error = 0 → net.datagram.data.length ≤ r.buffers.buffer_size →
        err = 0 ∧ bytes = net.datagram.data.length ∧
        (net.receive_from r.buffers.buffer_size E).data = net.datagram.data) := by
  rw [peek_receive_eq error E net reentry w S r hfind hdeq]
  obtain ⟨h1, _, _, n, h4, _, _⟩ := rearm_run_calls reentry
    { w with
      socks := Function.update w.socks S { w.socks S with pending := none }
      trace := w.trace ++ [Event.dequeue S,
        Event.receive_from (Target.request S r.buffers)
          (net.receive_from r.buffers.buffer_size E).error
          (net.receive_from r.buffers.buffer_size E).bytes,
        Event.process_receive S (net.receive_from r.buffers.buffer_size E).error
          r.header_data (net.receive_from r.buffers.buffer_size E).bytes r.handler] }
  refine ⟨_, _, _, ?_, rfl, rfl, ⟨n, rfl⟩, ?_, ?_, ?_, ?_, ?_⟩
  · rw [h4]; simp
  · simp [Event.is_read, filter_replicate_arm]
  · simp [Event.receiver, filterMap_replicate_arm]
  · simp [Event.is_completion, filter_replicate_arm]
  · intro s
    rw [h1]
    by_cases hs : s = S
    · subst hs; simp
    · simp [Function.update_noteq hs]
  · intro hok hfit
    simp [receive_from_error, receive_from_bytes, receive_from_data, hok, hfit,
      List.take_of_length_le hfit]

/-- Witness of claim C9: socket 2 is registered under endpoint 5 and waits with a request
whose buffers hold 2 + 4 bytes; a datagram of three bytes arrives from endpoint 5. -/
theorem direct_delivery_witness :
    ∃ evs,
      (multiplexer.process_peek 0 5 ⟨⟨5, [7, 8, 9]⟩, 0⟩ []
        ⟨[(5, 2)], 1, [], 0, fun _ => ⟨5, some ⟨⟨⟨100, 2⟩, [⟨200, 4⟩]⟩, 100, 11⟩, []⟩, []⟩).trace
        = [] ++ evs ∧
      evs.filterMap Event.receiver = [2] ∧
      evs.filter Event.is_completion = [Event.process_receive 2 0 100 3 11] := by
  obtain ⟨evs, err, bytes, h1, h2, h3, _, _, h6, h7, _, _⟩ :=
    direct_delivery 0 5 ⟨⟨5, [7, 8, 9]⟩, 0⟩ []
      ⟨[(5, 2)], 1, [], 0, fun _ => ⟨5, some ⟨⟨⟨100, 2⟩, [⟨200, 4⟩]⟩, 100, 11⟩, []⟩, []⟩ 2
      ⟨⟨⟨100, 2⟩, [⟨200, 4⟩]⟩, 100, 11⟩ rfl rfl
  refine ⟨evs, h1, h6, ?_⟩
  rw [h7, h2, h3]
  rfl

/-! ### C10 -/

/-- Claim C10: for a socket `S` registered under `E` with no pending receive request, `k`
consecutive peek cycles reporting source `E` make exactly `k` `enqueue` calls, all on `S`,
in arrival order, each with the error code and byte count of its read and a buffer of the
queried datagram length (holding the datagram when the read succeeds); the backlog of `S`
afterwards is its old contents followed by these `k` entries in arrival order, and no
other socket changes. -/
theorem backlog_in_arrival_order (E : endpoint_type) (S : SocketId)
    (cs : List (error_code × Transport × List Call)) :
    ∀ w : System, w.sockets.find E = some S → (w.dequeue S).1 = none →
      (∃ evs, (peek_cycles E cs w).trace = w.trace ++ evs ∧
        evs.filterMap Event.enqueued = cs.map (fun c => (S, backlog_entry c.2.1 E))) ∧
      ((peek_cycles E cs w).socks S).backlog
        = (w.socks S).backlog ++ cs.map (fun c => backlog_entry c.2.1 E) ∧
      (∀ s, s ≠ S → (peek_cycles E cs w).socks s = w.socks s) ∧
      (∀ c ∈ cs, (backlog_entry c.2.1 E).2.2.length = c.2.1.bytes_readable ∧
        (backlog_entry c.2.1 E).2.1 = (c.2.1.receive_from c.2.1.bytes_readable E).bytes ∧
        (c.2.1.read_error = 0 →
          backlog_entry c.2.1 E = (0, c.2.1.datagram.data.length, c.2.1.datagram.data))) := by
  induction cs with
  | nil =>
    intro w _ _
    exact ⟨⟨[], by simp [peek_cycles], rfl⟩, by simp [peek_cycles], fun _ _ => rfl,
      fun c hc => by cases hc⟩
  | cons c cs ih =>
    intro w hfind hdeq
    obtain ⟨e1, e2, e3, e4, e5⟩ := enqueue_cycle c.1 E c.2.1 c.2.2 w S hfind hdeq
    have hfind1 : (multiplexer.process_peek c.1 E c.2.1 c.2.2 w).sockets.find E = some S := by
      rw [e1]; exact hfind
    have hdeq1 : ((multiplexer.process_peek c.1 E c.2.1 c.2.2 w).dequeue S).1 = none := by
      simp [System.dequeue, e4]
    obtain ⟨⟨evs, i1, i2⟩, i3, i4, i5⟩ := ih _ hfind1 hdeq1
    refine ⟨⟨([Event.dequeue S, Event.make_shared c.2.1.bytes_readable,
          Event.receive_from (Target.datagram c.2.1.bytes_readable) (backlog_entry c.2.1 E).1
            (backlog_entry c.2.1 E).2.1,
          Event.enqueue S (backlog_entry c.2.1 E).1 (backlog_entry c.2.1 E).2.1
            (backlog_entry c.2.1 E).2.2]
        ++ (if 0 < wrap (w.receive_calls - 1) then [Event.async_receive_from] else []))
        ++ evs,
      ?_, ?_⟩, ?_, ?_, ?_⟩
    · show (peek_cycles E cs (multiplexer.process_peek c.1 E c.2.1 c.2.2 w)).trace = _
      rw [i1, e5, List.append_assoc]
    · by_cases h : 0 < wrap (w.receive_calls - 1) <;> simp [h, Event.enqueued, i2]
    · show ((peek_cycles E cs (multiplexer.process_peek c.1 E c.2.1 c.2.2 w)).socks S).backlog = _
      rw [i3, e4]; simp
    · intro s hs
      show (peek_cycles E cs (multiplexer.process_peek c.1 E c.2.1 c.2.2 w)).socks s = _
      rw [i4 s hs, e4, Function.update_noteq hs]
    · intro c1 hc1
      rcases List.mem_cons.mp hc1 with rfl | hin
      · refine ⟨?_, rfl, ?_⟩
        · simp only [backlog_entry, buffer_write, make_buffer, receive_from_data,
            Transport.bytes_readable]
          by_cases hok : c1.2.1.read_error = 0 <;> simp [hok]
        · intro hok
          simp [backlog_entry, buffer_write, make_buffer, receive_from_data,
            receive_from_error, receive_from_bytes, Transport.bytes_readable, hok]
      · exact i5 c1 hin

/-- Witness of claim C10: socket 2, registered under endpoint 5 with one datagram already
in its backlog and no pending request, gets two more datagrams from endpoint 5. -/
theorem backlog_in_arrival_order_witness :
    ((peek_cycles 5 [(0, ⟨⟨5, [1, 2]⟩, 0⟩, []), (0, ⟨⟨5, [3]⟩, 0⟩, [])]
        ⟨[(5, 2)], 2, [], 0, fun _ => ⟨5, none, [(0, 1, [9])]⟩, []⟩).socks 2).backlog
      = [(0, 1, [9])] ++ [(0, 2, [1, 2]), (0, 1, [3])] :=
  (backlog_in_arrival_order 5 2 [(0, ⟨⟨5, [1, 2]⟩, 0⟩, []), (0, ⟨⟨5, [3]⟩, 0⟩, [])]
    ⟨[(5, 2)], 2, [], 0, fun _ => ⟨5, none, [(0, 1, [9])]⟩, []⟩ rfl rfl).2.1

/-! ### C11 -/

/-- Claim C11, as amended: in every state reached from a freshly created multiplexer by
steps (calls on the public interface, and completions of an outstanding peek), the
interest counter is the number of `async_accept` and `start_receive` calls made so far
(those a resolved consumer makes re-entrantly included) minus the number of completed peek
cycles, reduced modulo `2^32` into the range of `int`. As long as the counter has not
overflowed (no step took it beyond `INT_MAX`) it is not negative and equals that
difference exactly; when moreover no consumer calls back, the calls made are the
`async_accept` and `start_receive` steps of the sequence. -/
theorem counter_is_requests_minus_cycles (socks : SocketId → socket_base) (ops : List Op)
    (w : System) (h : run ops (multiplexer.create socks) = some w) :
    in_range w.receive_calls ∧
    w.receive_calls
      = wrap ((requests_made ops (multiplexer.create socks) : Int) - cycles_completed ops) ∧
    (no_overflow ops (multiplexer.create socks) = true →
      0 ≤ w.receive_calls ∧
      w.receive_calls
        = (requests_made ops (multiplexer.create socks) : Int) - cycles_completed ops ∧
      ((∀ op ∈ ops, op.is_plain = true) →
        w.receive_calls = (request_steps ops : Int) - cycles_completed ops)) := by
  have hr : in_range w.receive_calls :=
    run_in_range ops _ w (by unfold in_range INT_MIN INT_MAX; simp [multiplexer.create]) h
  have hw := run_counter_wrap ops _ w h
  rw [wrap_of_range _ hr.1 hr.2] at hw
  refine ⟨hr, by rw [hw]; simp [multiplexer.create], fun hno => ?_⟩
  have h1 := (loop_invariant_run ops _ w (loop_invariant_create socks) hno h).1
  have h2 := run_counter_exact ops _ w (loop_invariant_create socks) hno h
  have h3 : w.receive_calls
      = (requests_made ops (multiplexer.create socks) : Int) - cycles_completed ops := by
    rw [h2]
    simp [multiplexer.create]
  refine ⟨h1, h3, fun hplain => ?_⟩
  rw [h3, requests_made_plain ops _ w hplain h]

/-- Witness of claim C11: two accept requests and one receive request, then two datagrams
from the unregistered endpoint 9: three calls, two cycles, counter 1. -/
theorem counter_is_requests_minus_cycles_witness :
    ∃ w, run [Op.call (Call.async_accept 1 7), Op.call (Call.async_accept 2 8),
              Op.call Call.start_receive,
              Op.peek 0 9 ⟨⟨9, [4, 2]⟩, 0⟩ [], Op.peek 0 9 ⟨⟨9, [5]⟩, 0⟩ []]
            (multiplexer.create (fun _ => ⟨0, none, []⟩)) = some w ∧
      w.receive_calls = 1 ∧
      0 ≤ w.receive_calls ∧
      w.receive_calls
        = (requests_made [Op.call (Call.async_accept 1 7), Op.call (Call.async_accept 2 8),
              Op.call Call.start_receive,
              Op.peek 0 9 ⟨⟨9, [4, 2]⟩, 0⟩ [], Op.peek 0 9 ⟨⟨9, [5]⟩, 0⟩ []]
            (multiplexer.create (fun _ => ⟨0, none, []⟩)) : Int)
          - cycles_completed [Op.call (Call.async_accept 1 7),
              Op.call (Call.async_accept 2 8), Op.call Call.start_receive,
              Op.peek 0 9 ⟨⟨9, [4, 2]⟩, 0⟩ [], Op.peek 0 9 ⟨⟨9, [5]⟩, 0⟩ []] :=
  ⟨_, rfl, rfl,
    ((counter_is_requests_minus_cycles (fun _ => ⟨0, none, []⟩)
      [Op.call (Call.async_accept 1 7), Op.call (Call.async_accept 2 8),
        Op.call Call.start_receive,
        Op.peek 0 9 ⟨⟨9, [4, 2]⟩, 0⟩ [], Op.peek 0 9 ⟨⟨9, [5]⟩, 0⟩ []] _ rfl).2.2
      (by decide)).1,
    ((counter_is_requests_minus_cycles (fun _ => ⟨0, none, []⟩)
      [Op.call (Call.async_accept 1 7), Op.call (Call.async_accept 2 8),
        Op.call Call.start_receive,
        Op.peek 0 9 ⟨⟨9, [4, 2]⟩, 0⟩ [], Op.peek 0 9 ⟨⟨9, [5]⟩, 0⟩ []] _ rfl).2.2
      (by decide)).2.1⟩

/-- Counterexample to claim C11 as stated: after `2^31` calls of `start_receive` on a
freshly created multiplexer and no completed cycle, the counter is `INT_MIN`: it is
negative, and it is not the `2^31` calls made minus the 0 cycles completed. -/
theorem counter_negative_after_overflow :
    ∃ w, run (List.replicate 2147483648 (Op.call Call.start_receive))
            (multiplexer.create (fun _ => ⟨0, none, []⟩)) = some w ∧
      w.receive_calls = -2147483648 ∧
      requests_made (List.replicate 2147483648 (Op.call Call.start_receive))
        (multiplexer.create (fun _ => ⟨0, none, []⟩)) = 2147483648 ∧
      cycles_completed (List.replicate 2147483648 (Op.call Call.start_receive)) = 0 :=
  ⟨_, run_start_receives_overflow (fun _ => ⟨0, none, []⟩) 2147483646 (by norm_num), rfl,
    requests_made_start_receives 2147483648 _,
    cycles_completed_calls 2147483648 Call.start_receive⟩

/-! ### C12 -/

/-- Claim C12, as amended: in every state `async_accept(s, h)` appends `(s, h)` at the
tail of the accept queue (the earlier entries stay in place and in order), leaves the
routing map and the sockets unchanged, increments the interest counter by one in `int`
arithmetic (by exactly one whenever the counter is below `INT_MAX`; from `INT_MAX` it
wraps to `INT_MIN`), and arms a peek if and only if the counter was 0 before the call. -/
theorem async_accept_appends_and_arms (s : SocketId) (h : HandlerId) (w : System) :
    (multiplexer.async_accept s h w).acceptor_queue = w.acceptor_queue ++ [(s, h)] ∧
    (multiplexer.async_accept s h w).sockets = w.sockets ∧
    (multiplexer.async_accept s h w).socks = w.socks ∧
    (multiplexer.async_accept s h w).receive_calls = wrap (w.receive_calls + 1) ∧
    (INT_MIN ≤ w.receive_calls → w.receive_calls < INT_MAX →
      (multiplexer.async_accept s h w).receive_calls = w.receive_calls + 1) ∧
    (multiplexer.async_accept s h w).peeks
      = w.peeks + (if w.receive_calls = 0 then 1 else 0) ∧
    (multiplexer.async_accept s h w).trace
      = w.trace ++ (if w.receive_calls = 0 then [Event.async_receive_from] else []) := by
  have hrc : (multiplexer.async_accept s h w).receive_calls = wrap (w.receive_calls + 1) := by
    by_cases h0 : w.receive_calls = 0 <;>
      simp [multiplexer.async_accept, multiplexer.do_start_receive, h0]
  refine ⟨?_, ?_, ?_, hrc, ?_, ?_, ?_⟩
  · by_cases h0 : w.receive_calls = 0 <;>
      simp [multiplexer.async_accept, multiplexer.do_start_receive, h0]
  · by_cases h0 : w.receive_calls = 0 <;>
      simp [multiplexer.async_accept, multiplexer.do_start_receive, h0]
  · by_cases h0 : w.receive_calls = 0 <;>
      simp [multiplexer.async_accept, multiplexer.do_start_receive, h0]
  · intro hlo hhi
    rw [hrc]
    unfold INT_MIN at hlo
    unfold INT_MAX at hhi
    exact wrap_of_range _ (by unfold INT_MIN; omega) (by unfold INT_MAX; omega)
  · by_cases h0 : w.receive_calls = 0 <;>
      simp [multiplexer.async_accept, multiplexer.do_start_receive, h0]
  · by_cases h0 : w.receive_calls = 0 <;>
      simp [multiplexer.async_accept, multiplexer.do_start_receive, h0]

/-- Witness of claim C12: with the counter at 0 and one entry queued, `async_accept(2, 8)`
puts `(2, 8)` behind it, raises the counter to 1 and arms the peek. -/
theorem async_accept_appends_and_arms_witness :
    (multiplexer.async_accept 2 8
        ⟨[], 0, [(1, 7)], 0, fun _ => ⟨0, none, []⟩, []⟩).acceptor_queue
      = [(1, 7)] ++ [(2, 8)] ∧
    (multiplexer.async_accept 2 8
        ⟨[], 0, [(1, 7)], 0, fun _ => ⟨0, none, []⟩, []⟩).receive_calls = 0 + 1 ∧
    (multiplexer.async_accept 2 8
        ⟨[], 0, [(1, 7)], 0, fun _ => ⟨0, none, []⟩, []⟩).peeks
      = 0 + (if (0 : Int) = 0 then 1 else 0) :=
  ⟨(async_accept_appends_and_arms 2 8 ⟨[], 0, [(1, 7)], 0, fun _ => ⟨0, none, []⟩, []⟩).1,
    (async_accept_appends_and_arms 2 8
      ⟨[], 0, [(1, 7)], 0, fun _ => ⟨0, none, []⟩, []⟩).2.2.2.2.1 (by decide) (by decide),
    (async_accept_appends_and_arms 2 8
      ⟨[], 0, [(1, 7)], 0, fun _ => ⟨0, none, []⟩, []⟩).2.2.2.2.2.1⟩

/-- Counterexample to claim C12 as stated: with the counter at `INT_MAX` (reached by
`2^31 - 1` calls of `start_receive`), `async_accept(2, 8)` leaves the counter at
`INT_MIN`, not at `INT_MAX + 1`. -/
theorem async_accept_wraps_at_int_max :
    (multiplexer.async_accept 2 8
        ⟨[], 2147483647, [], 1, fun _ => ⟨0, none, []⟩, []⟩).receive_calls = -2147483648 ∧
    (multiplexer.async_accept 2 8
        ⟨[], 2147483647, [], 1, fun _ => ⟨0, none, []⟩, []⟩).acceptor_queue = [(2, 8)] :=
  ⟨by decide, by decide⟩

/-! ### C13 -/

/-- Claim C13: when socket `s` is registered under its current remote endpoint `E`,
`remove(s)` leaves no entry under `E`, the only entry that disappears is the one of `s`
under `E`, every other endpoint maps to what it mapped to before, and the accept queue
(with any entry that targets `s`), the interest counter, the outstanding peek, the sockets
and the trace are unchanged. -/
theorem remove_registered_socket (s : SocketId) (w : System)
    (h : w.sockets.find (w.socks s).remote = some s) :
    (multiplexer.remove s w).sockets.find (w.socks s).remote = none ∧
    (∀ e, e ≠ (w.socks s).remote →
      (multiplexer.remove s w).sockets.find e = w.sockets.find e) ∧
    (∀ e v, w.sockets.find e = some v → (multiplexer.remove s w).sockets.find e = none →
      e = (w.socks s).remote ∧ v = s) ∧
    (multiplexer.remove s w).acceptor_queue = w.acceptor_queue ∧
    (multiplexer.remove s w).receive_calls = w.receive_calls ∧
    (multiplexer.remove s w).peeks = w.peeks ∧
    (multiplexer.remove s w).socks = w.socks ∧
    (multiplexer.remove s w).trace = w.trace := by
  have key : ∀ e, (multiplexer.remove s w).sockets.find e
      = if e = (w.socks s).remote then none else w.sockets.find e :=
    fun e => socket_map_find_erase w.sockets _ e
  refine ⟨by rw [key]; simp, ?_, ?_, rfl, rfl, rfl, rfl, rfl⟩
  · intro e he
    rw [key, if_neg he]
  · intro e v hv hgone
    rw [key] at hgone
    by_cases he : e = (w.socks s).remote
    · subst he
      rw [h] at hv
      exact ⟨rfl, by injection hv with hv; exact hv.symm⟩
    · rw [if_neg he, hv] at hgone
      exact Option.noConfusion hgone

/-- Witness of claim C13: sockets 1 and 2 are registered under endpoints 5 and 6 and an
accept request targets socket 2; `remove(2)` erases the entry of endpoint 6 only. -/
theorem remove_registered_socket_witness :
    (multiplexer.remove 2
      ⟨[(5, 1), (6, 2)], 1, [(2, 9)], 1, fun s => ⟨if s = 2 then 6 else 5, none, []⟩,
        []⟩).sockets.find 6 = none ∧
    (multiplexer.remove 2
      ⟨[(5, 1), (6, 2)], 1, [(2, 9)], 1, fun s => ⟨if s = 2 then 6 else 5, none, []⟩,
        []⟩).sockets.find 5 = some 1 ∧
    (multiplexer.remove 2
      ⟨[(5, 1), (6, 2)], 1, [(2, 9)], 1, fun s => ⟨if s = 2 then 6 else 5, none, []⟩,
        []⟩).acceptor_queue = [(2, 9)] :=
  ⟨(remove_registered_socket 2
      ⟨[(5, 1), (6, 2)], 1, [(2, 9)], 1, fun s => ⟨if s = 2 then 6 else 5, none, []⟩, []⟩
      rfl).1,
    rfl, rfl⟩

/-! ### C14 -/

/-- Claim C14: when the endpoint `E` returned by `s.remote_endpoint()` is not registered,
after `add(s)` the routing map maps `E` to `s` and every other endpoint to what it mapped
to before, and the accept queue, the interest counter, the outstanding peek, the sockets
and the trace are unchanged. -/
theorem add_registers_socket (s : SocketId) (w : System)
    (h : w.sockets.find (w.socks s).remote = none) :
    (multiplexer.add s w).sockets.find (w.socks s).remote = some s ∧
    (∀ e, e ≠ (w.socks s).remote →
      (multiplexer.add s w).sockets.find e = w.sockets.find e) ∧
    (multiplexer.add s w).acceptor_queue = w.acceptor_queue ∧
    (multiplexer.add s w).receive_calls = w.receive_calls ∧
    (multiplexer.add s w).peeks = w.peeks ∧
    (multiplexer.add s w).socks = w.socks ∧
    (multiplexer.add s w).trace = w.trace := by
  have key : ∀ e, (multiplexer.add s w).sockets.find e
      = if e = (w.socks s).remote then some s else w.sockets.find e :=
    fun e => socket_map_find_insert_absent w.sockets _ s h e
  refine ⟨by rw [key]; simp, ?_, rfl, rfl, rfl, rfl, rfl⟩
  intro e he
  rw [key, if_neg he]

/-- Witness of claim C14: socket 1 is registered under endpoint 5; socket 2, whose remote
endpoint is 6, is added. -/
theorem add_registers_socket_witness :
    (multiplexer.add 2
      ⟨[(5, 1)], 0, [], 0, fun s => ⟨if s = 2 then 6 else 5, none, []⟩, []⟩).sockets.find 6
      = some 2 ∧
    (multiplexer.add 2
      ⟨[(5, 1)], 0, [], 0, fun s => ⟨if s = 2 then 6 else 5, none, []⟩, []⟩).sockets.find 5
      = some 1 :=
  ⟨(add_registers_socket 2
      ⟨[(5, 1)], 0, [], 0, fun s => ⟨if s = 2 then 6 else 5, none, []⟩, []⟩ rfl).1,
    rfl⟩

/-! ### C15 -/

/-- Claim C15, as amended: every peek completion, whichever branch it takes and whatever
the consuming read reports, decrements the interest counter by one in `int` arithmetic
and then arms exactly one new peek if the counter is positive and none otherwise. Without
re-entrant calls the counter after the cycle is the counter before minus one whenever the
counter is above `INT_MIN` (from `INT_MIN` it wraps to `INT_MAX`, and the peek is
re-armed). When the resolved consumer calls back, its calls are added first; if the
counter is positive when the cycle starts and these calls do not take it beyond
`INT_MAX`, the counter ends at its old value plus their number minus one, and the one
re-arm is again the only peek armed. -/
theorem every_cycle_decrements_and_rearms (error : error_code) (E : endpoint_type)
    (net : Transport) (w : System) :
    (multiplexer.process_peek error E net [] w).receive_calls = wrap (w.receive_calls - 1) ∧
    (INT_MIN < w.receive_calls → w.receive_calls ≤ INT_MAX →
      (multiplexer.process_peek error E net [] w).receive_calls = w.receive_calls - 1) ∧
    (multiplexer.process_peek error E net [] w).peeks
      = w.peeks + (if 0 < (multiplexer.process_peek error E net [] w).receive_calls
                   then 1 else 0) ∧
    (∃ evs, (multiplexer.process_peek error E net [] w).trace = w.trace ++ evs ∧
      (evs.filter Event.is_peek).length
        = if 0 < (multiplexer.process_peek error E net [] w).receive_calls then 1 else 0) ∧
    (∀ reentry : List Call,
      (multiplexer.process_peek error E net reentry w).receive_calls
        = wrap (w.receive_calls + bumps (invoked E reentry w) - 1) ∧
      (0 < w.receive_calls → w.receive_calls + bumps (invoked E reentry w) ≤ INT_MAX →
        (multiplexer.process_peek error E net reentry w).receive_calls
          = w.receive_calls + bumps (invoked E reentry w) - 1 ∧
        (multiplexer.process_peek error E net reentry w).peeks
          = w.peeks
            + (if 0 < (multiplexer.process_peek error E net reentry w).receive_calls
               then 1 else 0) ∧
        ∃ evs, (multiplexer.process_peek error E net reentry w).trace = w.trace ++ evs ∧
          (evs.filter Event.is_peek).length
            = if 0 < (multiplexer.process_peek error E net reentry w).receive_calls
              then 1 else 0)) := by
  have c0 := (process_peek_counts error E net [] w).1
  rw [invoked_nil] at c0
  simp only [bumps, Nat.cast_zero, add_zero] at c0
  refine ⟨c0, ?_, ?_, ?_, ?_⟩
  · intro hlo hhi
    rw [c0]
    unfold INT_MIN at hlo
    unfold INT_MAX at hhi
    exact wrap_of_range _ (by unfold INT_MIN; omega) (by unfold INT_MAX; omega)
  · obtain ⟨evs0, n, _, _, a3, _, a5⟩ := process_peek_arms error E net [] w
    rw [a3, a5 (invoked_nil E w), c0]
  · obtain ⟨evs0, n, a1, a2, _, _, a5⟩ := process_peek_arms error E net [] w
    refine ⟨_, a1, ?_⟩
    rw [List.filter_append, a2, filter_is_peek_replicate, List.nil_append,
      List.length_replicate, a5 (invoked_nil E w), c0]
  · intro reentry
    obtain ⟨c1, _, c3⟩ := process_peek_counts error E net reentry w
    refine ⟨c1, fun hpos hmax => ?_⟩
    obtain ⟨c4, c5⟩ := c3 hpos hmax
    obtain ⟨evs0, n, a1, a2, a3, a4, _⟩ := process_peek_arms error E net reentry w
    have hn := a4 hpos hmax
    have hif : (if 1 < w.receive_calls + (bumps (invoked E reentry w) : Int) then 1 else 0)
        = (if 0 < w.receive_calls + (bumps (invoked E reentry w) : Int) - 1
           then 1 else 0 : Nat) := by
      by_cases hc : 1 < w.receive_calls + (bumps (invoked E reentry w) : Int)
      · rw [if_pos hc, if_pos (by omega)]
      · rw [if_neg hc, if_neg (by omega)]
    rw [hif] at hn
    refine ⟨c4, by rw [a3, hn, c4], _, a1, ?_⟩
    rw [List.filter_append, a2, filter_is_peek_replicate, List.nil_append,
      List.length_replicate, hn, c4]

/-- Witness of claim C15: socket 2 is registered under endpoint 5 with no pending request
and the counter is 2; the cycle leaves the counter at 1 and arms one peek. -/
theorem every_cycle_decrements_and_rearms_witness :
    (multiplexer.process_peek 0 5 ⟨⟨5, [1]⟩, 3⟩ []
        ⟨[(5, 2)], 2, [], 0, fun _ => ⟨5, none, []⟩, []⟩).receive_calls = 2 - 1 ∧
    (multiplexer.process_peek 0 5 ⟨⟨5, [1]⟩, 3⟩ []
        ⟨[(5, 2)], 2, [], 0, fun _ => ⟨5, none, []⟩, []⟩).peeks
      = 0 + (if 0 < (multiplexer.process_peek 0 5 ⟨⟨5, [1]⟩, 3⟩ []
                ⟨[(5, 2)], 2, [], 0, fun _ => ⟨5, none, []⟩, []⟩).receive_calls
             then 1 else 0) :=
  ⟨(every_cycle_decrements_and_rearms 0 5 ⟨⟨5, [1]⟩, 3⟩
      ⟨[(5, 2)], 2, [], 0, fun _ => ⟨5, none, []⟩, []⟩).2.1 (by decide) (by decide),
    (every_cycle_decrements_and_rearms 0 5 ⟨⟨5, [1]⟩, 3⟩
      ⟨[(5, 2)], 2, [], 0, fun _ => ⟨5, none, []⟩, []⟩).2.2.1⟩

/-- Counterexample to claim C15 as stated: socket 2 is registered under endpoint 5 with no
pending request and the counter is `INT_MIN` (the state after `2^31` calls of
`start_receive`); the cycle takes the counter to `INT_MAX`, not to `INT_MIN - 1`, and
arms a peek. -/
theorem cycle_wraps_at_int_min :
    (multiplexer.process_peek 0 5 ⟨⟨5, [1]⟩, 0⟩ []
        ⟨[(5, 2)], -2147483648, [], 0, fun _ => ⟨5, none, []⟩, []⟩).receive_calls
      = 2147483647 ∧
    (multiplexer.process_peek 0 5 ⟨⟨5, [1]⟩, 0⟩ []
        ⟨[(5, 2)], -2147483648, [], 0, fun _ => ⟨5, none, []⟩, []⟩).peeks = 1 :=
  ⟨by decide, by decide⟩

/-! ### C16 -/

/-- Claim C16: on the accept path (source not registered, accept queue not empty) the
oldest accept entry `(A, h)` leaves the queue in both cases. When the consuming read
reports an error, the cycle makes no socket operation at all (`A` is neither bound nor
given the datagram, no socket changes) and calls `h` exactly once, with that error. When
the read succeeds, `A` is bound to the source of the datagram, the datagram is enqueued on
`A`, and then `h` is called exactly once, with success. -/
theorem accept_path_error_and_success (error : error_code) (E : endpoint_type)
    (net : Transport) (reentry : List Call) (w : System) (A : SocketId) (h : HandlerId)
    (rest : List (SocketId × HandlerId))
    (hfind : w.sockets.find E = none) (hq : w.acceptor_queue = (A, h) :: rest) :
    (multiplexer.process_peek error E net reentry w).acceptor_queue
      = rest ++ accepts reentry ∧
    (net.read_error ≠ 0 →
      (multiplexer.process_peek error E net reentry w).socks = w.socks ∧
      ∃ evs, (multiplexer.process_peek error E net reentry w).trace = w.trace ++ evs ∧
        evs.filterMap Event.socket = [] ∧
        evs.filter Event.is_completion = [Event.handler h net.read_error]) ∧
    (net.read_error = 0 →
      (multiplexer.process_peek error E net reentry w).socks
        = Function.update w.socks A
            { w.socks A with
              remote := net.datagram.source
              backlog := (w.socks A).backlog
                ++ [(0, net.datagram.data.length, net.datagram.data)] } ∧
      ∃ n, (multiplexer.process_peek error E net reentry w).trace
        = w.trace ++ ([Event.make_shared net.datagram.data.length,
            Event.receive_from (Target.datagram net.datagram.data.length) 0
              net.datagram.data.length,
            Event.remote_endpoint A net.datagram.source,
            Event.enqueue A 0 net.datagram.data.length net.datagram.data,
            Event.handler h 0] ++ List.replicate n Event.async_receive_from)) := by
  refine ⟨?_, ?_, ?_⟩
  · by_cases hok : net.read_error = 0
    · exact (accept_cycle_ok error E net reentry w A h rest hfind hq hok).1
    · exact (accept_cycle_err error E net reentry w A h rest hfind hq hok).1
  · intro hbad
    obtain ⟨_, a2, n, a3⟩ := accept_cycle_err error E net reentry w A h rest hfind hq hbad
    refine ⟨a2, _, a3, ?_, ?_⟩
    · simp [Event.socket, filterMap_replicate_arm]
    · simp [Event.is_completion, filter_replicate_arm]
  · intro hok
    obtain ⟨_, a2, n, a3⟩ := accept_cycle_ok error E net reentry w A h rest hfind hq hok
    exact ⟨a2, n, a3⟩

/-- Witness of claim C16: the accept request (1, 7) is queued, a datagram arrives from the
unregistered endpoint 9 and the read fails with error 3. -/
theorem accept_path_error_and_success_witness :
    (multiplexer.process_peek 0 9 ⟨⟨9, [1]⟩, 3⟩ []
        ⟨[], 1, [(1, 7)], 0, fun _ => ⟨0, none, []⟩, []⟩).acceptor_queue = [] ++ accepts [] ∧
    ∃ evs,
      (multiplexer.process_peek 0 9 ⟨⟨9, [1]⟩, 3⟩ []
        ⟨[], 1, [(1, 7)], 0, fun _ => ⟨0, none, []⟩, []⟩).trace = [] ++ evs ∧
      evs.filterMap Event.socket = [] ∧
      evs.filter Event.is_completion = [Event.handler 7 3] := by
  obtain ⟨h1, h2, _⟩ := accept_path_error_and_success 0 9 ⟨⟨9, [1]⟩, 3⟩ []
    ⟨[], 1, [(1, 7)], 0, fun _ => ⟨0, none, []⟩, []⟩ 1 7 [] rfl rfl
  exact ⟨h1, (h2 (by decide)).2⟩

/-! ### C17 -/

/-- Claim C17, as amended: take a peek cycle that starts with a positive interest counter
and resolves a consumer (an accept request is queued for an unregistered source, or the
registered socket has a pending request), and let that consumer call `async_accept` and
`start_receive` at least once from inside the cycle, without these calls taking the
counter beyond `INT_MAX`. The consumer runs in a state whose counter is the counter
before the cycle, so none of its calls arms a peek; after the decrement of the cycle the
counter is its old value plus the number of re-entrant calls minus one, it is positive,
and exactly one peek has been armed. -/
theorem reentrant_calls_keep_single_flight (error : error_code) (E : endpoint_type)
    (net : Transport) (reentry : List Call) (w : System)
    (hpos : 0 < w.receive_calls)
    (hconsumer : (w.sockets.find E = none ∧ w.acceptor_queue ≠ []) ∨
      (∃ S, w.sockets.find E = some S ∧ ((w.socks S).pending).isSome = true))
    (hcalls : 0 < bumps reentry)
    (hmax : w.receive_calls + bumps reentry ≤ INT_MAX) :
    (∃ wX : System,
      multiplexer.process_peek error E net reentry w
        = multiplexer.rearm (run_calls reentry wX) ∧
      wX.receive_calls = w.receive_calls ∧ wX.peeks = w.peeks ∧
      (run_calls reentry wX).peeks = wX.peeks ∧
      (run_calls reentry wX).trace = wX.trace ∧
      (run_calls reentry wX).receive_calls = wX.receive_calls + bumps reentry) ∧
    (reentry.all Call.is_request = true → bumps reentry = reentry.length) ∧
    (multiplexer.process_peek error E net reentry w).receive_calls
      = w.receive_calls + bumps reentry - 1 ∧
    0 < (multiplexer.process_peek error E net reentry w).receive_calls ∧
    (multiplexer.process_peek error E net reentry w).peeks = w.peeks + 1 ∧
    (∃ evs, (multiplexer.process_peek error E net reentry w).trace = w.trace ++ evs ∧
      (evs.filter Event.is_peek).length = 1) := by
  have hinv : invoked E reentry w = reentry := by
    rcases hconsumer with ⟨hf, hq⟩ | ⟨S, hf, hp⟩
    · simp [invoked, hf, hq]
    · simp [invoked, hf, hp]
  obtain ⟨wX, s1, s2, s3, _⟩ := process_peek_shape_trace error E net reentry w
  rw [hinv] at s1
  obtain ⟨_, _, _, n, r4, r5, r6⟩ := run_calls_effect reentry wX
  obtain ⟨hn, r3⟩ := r6 (by rw [s2]; exact hpos) (by rw [s2]; exact hmax)
  subst hn
  have c3 := (process_peek_counts error E net reentry w).2.2
  rw [hinv] at c3
  obtain ⟨c1, _⟩ := c3 hpos hmax
  obtain ⟨evs0, m, a1, a2, a3, a4, _⟩ := process_peek_arms error E net reentry w
  rw [hinv] at a4
  have hm : m = 1 := by
    rw [a4 hpos hmax, if_pos (by omega)]
  subst hm
  refine ⟨⟨wX, s1, s2, s3, by simpa using r5, by simpa using r4, r3⟩,
    bumps_eq_length reentry, c1, by rw [c1]; omega, a3, _, a1, ?_⟩
  rw [List.filter_append, a2, filter_is_peek_replicate]
  rfl

/-- Witness of claim C17: an accept request (1, 7) is queued with the counter at 1; the
datagram from endpoint 9 resolves it, and its handler submits a new accept request and a
receive request from inside the cycle. -/
theorem reentrant_calls_keep_single_flight_witness :
    (multiplexer.process_peek 0 9 ⟨⟨9, [1]⟩, 0⟩ [Call.async_accept 2 8, Call.start_receive]
        ⟨[], 1, [(1, 7)], 0, fun _ => ⟨0, none, []⟩, []⟩).receive_calls
      = 1 + bumps [Call.async_accept 2 8, Call.start_receive] - 1 ∧
    (multiplexer.process_peek 0 9 ⟨⟨9, [1]⟩, 0⟩ [Call.async_accept 2 8, Call.start_receive]
        ⟨[], 1, [(1, 7)], 0, fun _ => ⟨0, none, []⟩, []⟩).peeks = 0 + 1 := by
  obtain ⟨_, _, h3, _, h5, _⟩ := reentrant_calls_keep_single_flight 0 9 ⟨⟨9, [1]⟩, 0⟩
    [Call.async_accept 2 8, Call.start_receive]
    ⟨[], 1, [(1, 7)], 0, fun _ => ⟨0, none, []⟩, []⟩ (by decide)
    (Or.inl ⟨rfl, by decide⟩) (by decide) (by decide)
  exact ⟨h3, h5⟩

/-- Counterexample to claim C17 as stated: an accept request (1, 7) is queued with the
counter at `INT_MAX`; the datagram from endpoint 9 resolves it and its handler calls
`async_accept` and `start_receive`. The counter wraps: after the cycle it is `INT_MIN`,
not `INT_MAX + 1`, and no peek is armed. -/
theorem reentrant_calls_overflow_at_int_max :
    (multiplexer.process_peek 0 9 ⟨⟨9, [1]⟩, 0⟩ [Call.async_accept 2 8, Call.start_receive]
        ⟨[], 2147483647, [(1, 7)], 0, fun _ => ⟨0, none, []⟩, []⟩).receive_calls
      = -2147483648 ∧
    (multiplexer.process_peek 0 9 ⟨⟨9, [1]⟩, 0⟩ [Call.async_accept 2 8, Call.start_receive]
        ⟨[], 2147483647, [(1, 7)], 0, fun _ => ⟨0, none, []⟩, []⟩).peeks = 0 :=
  ⟨by decide, by decide⟩

/-! ### C18 -/

/-- Claim C18: for the iterator of a `buffers` value with `N` payload segments standing at
position `i`, prefix increment reads payload index `i` and moves to position `i + 1`: for
`i < N` it is in range and returns the element of the new position, the one a following
dereference returns; at `i = N` (the last element) the access is out of range. Postfix
increment from the same position is in range for every `i ≤ N`: it returns the header at
`i = 0` and payload index `i - 1` otherwise, and moves to position `i + 1`. -/
theorem prefix_increment_reads_ahead (H : mutable_buffer) (P : List mutable_buffer)
    (i : Nat) :
    (∀ hi : i < P.length,
      ((buffers.make H P).at_position i).preinc
        = some (P.get ⟨i, hi⟩, (buffers.make H P).at_position (i + 1)) ∧
      ((buffers.make H P).at_position (i + 1)).deref = some (P.get ⟨i, hi⟩)) ∧
    (i = P.length → ((buffers.make H P).at_position i).preinc = none) ∧
    (i ≤ P.length →
      ((buffers.make H P).at_position i).postinc
        = some (if i = 0 then H else P.getD (i - 1) H,
                (buffers.make H P).at_position (i + 1)) ∧
      (0 < i → P[i - 1]? = some (P.getD (i - 1) H))) := by
  have hfirst : (buffers.make H P).first = { i := 0, header := some H, payload := some P } := by
    simp [buffers.first, const_iterator.make, buffers.make, foldl_emplace_back]
  refine ⟨?_, ?_, ?_⟩
  · intro hi
    have hget : P[i]? = some P[i] := List.getElem?_eq_getElem hi
    constructor
    · simp [buffers.at_position, hfirst, const_iterator.preinc, hget]
    · simp [buffers.at_position, hfirst, const_iterator.deref, hget]
  · intro hi
    have hget : P[i]? = none := List.getElem?_eq_none (by omega)
    simp [buffers.at_position, hfirst, const_iterator.preinc, hget]
  · intro hi
    by_cases h0 : i = 0
    · subst h0
      simp [buffers.at_position, hfirst, const_iterator.postinc]
    · have hlt : i - 1 < P.length := by omega
      have hget : P[i - 1]? = some P[i - 1] := List.getElem?_eq_getElem hlt
      have hD : P.getD (i - 1) H = P[i - 1] := by
        simp [List.getD, hget]
      constructor
      · simp [buffers.at_position, hfirst, const_iterator.postinc, h0, hget, hD]
      · intro _
        rw [hD, hget]

/-- Witness of claim C18: with the two payload segments `(20, 8)` and `(30, 16)`, prefix
increment at position 1 returns the second segment, and at position 2 it is out of
range while postfix increment at position 2 returns the second segment. -/
theorem prefix_increment_reads_ahead_witness :
    ((buffers.make ⟨10, 4⟩ [⟨20, 8⟩, ⟨30, 16⟩]).at_position 1).preinc
      = some (⟨30, 16⟩, (buffers.make ⟨10, 4⟩ [⟨20, 8⟩, ⟨30, 16⟩]).at_position 2) ∧
    ((buffers.make ⟨10, 4⟩ [⟨20, 8⟩, ⟨30, 16⟩]).at_position 2).preinc = none ∧
    ((buffers.make ⟨10, 4⟩ [⟨20, 8⟩, ⟨30, 16⟩]).at_position 2).postinc
      = some (⟨30, 16⟩, (buffers.make ⟨10, 4⟩ [⟨20, 8⟩, ⟨30, 16⟩]).at_position 3) :=
  ⟨((prefix_increment_reads_ahead ⟨10, 4⟩ [⟨20, 8⟩, ⟨30, 16⟩] 1).1 (by decide)).1,
    (prefix_increment_reads_ahead ⟨10, 4⟩ [⟨20, 8⟩, ⟨30, 16⟩] 2).2.1 rfl,
    ((prefix_increment_reads_ahead ⟨10, 4⟩ [⟨20, 8⟩, ⟨30, 16⟩] 2).2.2 (by decide)).1⟩

/-! ### C19 -/

/-- Claim C19: when endpoint `E` is registered to socket `t` and a different socket `s`
has remote endpoint `E` too, `add(s)` leaves the routing map as it was: `E` still maps to
`t` and not to `s`, `s` is registered afterwards under no endpoint it was not registered
under before, and a following peek completion with source `E` delivers to `t` alone. -/
theorem add_duplicate_endpoint_ignored (s t : SocketId) (E : endpoint_type) (w : System)
    (ht : w.sockets.find E = some t) (hs : (w.socks s).remote = E) (hne : s ≠ t) :
    (multiplexer.add s w).sockets = w.sockets ∧
    (multiplexer.add s w).sockets.find E = some t ∧
    (multiplexer.add s w).sockets.find E ≠ some s ∧
    (∀ e, (multiplexer.add s w).sockets.find e = some s ↔ w.sockets.find e = some s) ∧
    (∀ (error : error_code) (net : Transport) (reentry : List Call),
      ∃ evs,
        (multiplexer.process_peek error E net reentry (multiplexer.add s w)).trace
          = (multiplexer.add s w).trace ++ evs ∧
        evs.filterMap Event.receiver = [t] ∧
        (∀ x ∈ evs.filterMap Event.socket, x = t)) := by
  have hsame : (multiplexer.add s w).sockets = w.sockets := by
    show w.sockets.insert ((w.socks s).remote, s) = w.sockets
    rw [hs]
    exact socket_map_insert_present w.sockets E s t ht
  have hfind : (multiplexer.add s w).sockets.find E = some t := by rw [hsame]; exact ht
  refine ⟨hsame, hfind, ?_, fun e => by rw [hsame], ?_⟩
  · rw [hfind]
    intro hc
    injection hc with hc
    exact hne hc.symm
  · intro error net reentry
    exact registered_cycle error E net reentry (multiplexer.add s w) t hfind

/-- Witness of claim C19: socket 1 is registered under endpoint 5; socket 2 has remote
endpoint 5 as well and is added; the routing map still holds the one entry of socket 1. -/
theorem add_duplicate_endpoint_ignored_witness :
    (multiplexer.add 2 ⟨[(5, 1)], 1, [], 1, fun _ => ⟨5, none, []⟩, []⟩).sockets = [(5, 1)] ∧
    ∃ evs,
      (multiplexer.process_peek 0 5 ⟨⟨5, [8]⟩, 0⟩ []
        (multiplexer.add 2 ⟨[(5, 1)], 1, [], 1, fun _ => ⟨5, none, []⟩, []⟩)).trace
        = (multiplexer.add 2 ⟨[(5, 1)], 1, [], 1, fun _ => ⟨5, none, []⟩, []⟩).trace ++ evs ∧
      evs.filterMap Event.receiver = [1] := by
  obtain ⟨h1, _, _, _, h5⟩ := add_duplicate_endpoint_ignored 2 1 5
    ⟨[(5, 1)], 1, [], 1, fun _ => ⟨5, none, []⟩, []⟩ rfl rfl (by decide)
  obtain ⟨evs, e1, e2, _⟩ := h5 0 ⟨⟨5, [8]⟩, 0⟩ []
  exact ⟨h1, evs, e1, e2⟩

end crux
